import Mathlib

/-!
# Verification of the conversation/tool-call orchestrator of `jbutlerdev/genai`

A shallow embedding of the orchestrator code (retry policy, tool-call
extraction and quote repair, tool execution and deduplication, context
compaction, turn limiting, argument merging), translated from the Go
sources, together with theorems settling the specified properties.

Conventions used throughout:
* Go strings are modelled as Lean `String`s / `List Char`; the inputs the
  claims quantify over are ASCII, where Go's byte indexing and rune
  iteration coincide with character indexing.
* Durations are in milliseconds (`1s = 1000`).
* External collaborators (the backend SDK, the tokenizer, the tool bodies)
  are scripted: they are passed in as function parameters, exactly as the
  specification's "scripted sequence of failure/success responses" demands.
* A Go `panic` is modelled as a distinguished result (`Option`/`GoResult`).
-/

namespace Genai

/-- Whether `sub` occurs as a contiguous sublist starting at some suffix. -/
def listContains (sub : List Char) : List Char → Bool
  | [] => sub.isEmpty
  | c :: rest => sub.isPrefixOf (c :: rest) || listContains sub rest

/-- Go's `strings.Contains`: substring containment, on character lists. -/
def strContains (s sub : String) : Bool :=
  listContains sub.toList s.toList

/-! ## Retry policy (`src/gemini.go`) -/

/-- `RETRY_COUNT` from `src/gemini.go`. -/
def RETRY_COUNT : Nat := 8

/-- `MAX_RETRY_DELAY` from `src/gemini.go` (30 seconds), in milliseconds. -/
def MAX_RETRY_DELAY : Nat := 30000

/-- One scripted outcome of a single backend exchange: either a response
(an opaque token, modelled as `Nat`) or an error with its message text. -/
inductive GeminiResult where
  | resp (v : Nat)
  | err (msg : String)
deriving DecidableEq

/-- The retryability test from `src/gemini.go` line 37: the error is retried
iff its text contains `"429"`, `"503"` or `"400"`. -/
def isRetryableError (msg : String) : Bool :=
  strContains msg "429" || strContains msg "503" || strContains msg "400"

/-- Whether a scripted outcome is a failure that the wrapper retries. -/
def isRetryableResult : GeminiResult → Bool
  | .resp _ => false
  | .err m => isRetryableError m

/-- `retryableGeminiCall` from `src/gemini.go` lines 25-48.  The backend is
scripted: `script a` is the outcome of the call made with attempt counter
`a` (callers start at attempt `0`, so call number and attempt coincide).
Returns the final result together with the list of sleeps performed, in
order, in milliseconds (modelling `time.Sleep(delay)` before each retry). -/
def retryableGeminiCall (script : Nat → GeminiResult) (attempt delay : Nat) :
    Except String Nat × List Nat :=
  if _h : attempt > RETRY_COUNT then
    (.error ("failed to get response after " ++ toString RETRY_COUNT ++ " attempts"), [])
  else
    match script attempt with
    | .resp v => (.ok v, [])
    | .err msg =>
      if isRetryableError msg then
        let rest := retryableGeminiCall script (attempt + 1) (min (delay * 2) MAX_RETRY_DELAY)
        (rest.1, delay :: rest.2)
      else
        (.error ("failed to get response: " ++ msg), [])
termination_by RETRY_COUNT + 1 - attempt
decreasing_by omega

/-- The successive values taken by `delay` across retries when the first
sleep is `d`: each step doubles and caps at `MAX_RETRY_DELAY`. -/
def retryDelays (d : Nat) : Nat → List Nat
  | 0 => []
  | k + 1 => d :: retryDelays (min (d * 2) MAX_RETRY_DELAY) k

theorem retryableGeminiCall_eq_resp (script : Nat → GeminiResult) (a d v : Nat)
    (h : ¬ a > RETRY_COUNT) (hsc : script a = .resp v) :
    retryableGeminiCall script a d = (.ok v, []) := by
  rw [retryableGeminiCall, dif_neg h, hsc]

theorem retryableGeminiCall_eq_err (script : Nat → GeminiResult) (a d : Nat) (msg : String)
    (h : ¬ a > RETRY_COUNT) (hsc : script a = .err msg) :
    retryableGeminiCall script a d =
      if isRetryableError msg then
        ((retryableGeminiCall script (a + 1) (min (d * 2) MAX_RETRY_DELAY)).1,
          d :: (retryableGeminiCall script (a + 1) (min (d * 2) MAX_RETRY_DELAY)).2)
      else
        (.error ("failed to get response: " ++ msg), []) := by
  rw [retryableGeminiCall, dif_neg h, hsc]

theorem retryableGeminiCall_succeeds (script : Nat → GeminiResult) (v : Nat) :
    ∀ k a d, a + k ≤ RETRY_COUNT →
    (∀ i, i < k → isRetryableResult (script (a + i)) = true) →
    script (a + k) = .resp v →
    retryableGeminiCall script a d = (.ok v, retryDelays d k) := by
  intro k
  induction k with
  | zero =>
    intro a d ha _ hs
    simp only [Nat.add_zero] at hs
    exact retryableGeminiCall_eq_resp script a d v (by omega) hs
  | succ k ih =>
    intro a d ha hf hs
    have h0 : isRetryableResult (script (a + 0)) = true := hf 0 (Nat.succ_pos k)
    rw [Nat.add_zero] at h0
    cases hsc : script a with
    | resp w => rw [hsc] at h0; simp [isRetryableResult] at h0
    | err msg =>
      rw [hsc] at h0
      simp only [isRetryableResult] at h0
      rw [retryableGeminiCall_eq_err script a d msg (by omega) hsc, if_pos h0]
      have ihr := ih (a + 1) (min (d * 2) MAX_RETRY_DELAY) (by omega)
        (fun i hi => by
          have := hf (i + 1) (by omega)
          rwa [show a + (i + 1) = a + 1 + i by omega] at this)
        (by rwa [show a + 1 + k = a + (k + 1) by omega])
      rw [ihr]
      rfl

theorem retryDelays_closed (k : Nat) :
    ∀ j, retryDelays (min (1000 * 2 ^ j) MAX_RETRY_DELAY) k
      = (List.range k).map (fun i => min (1000 * 2 ^ (j + i)) MAX_RETRY_DELAY) := by
  induction k with
  | zero => intro j; rfl
  | succ k ih =>
    intro j
    rw [retryDelays]
    have hstep : min (min (1000 * 2 ^ j) MAX_RETRY_DELAY * 2) MAX_RETRY_DELAY
        = min (1000 * 2 ^ (j + 1)) MAX_RETRY_DELAY := by
      have : 1000 * 2 ^ (j + 1) = 1000 * 2 ^ j * 2 := by ring
      rw [this]
      omega
    rw [hstep, ih (j + 1), List.range_succ_eq_map]
    simp only [List.map_cons, List.map_map, Nat.add_zero]
    refine congrArg₂ List.cons rfl ?_
    apply List.map_congr_left
    intro i _
    simp only [Function.comp_apply]
    have hexp : j + 1 + i = j + (i + 1) := by omega
    rw [hexp]

theorem retryDelays_base (k : Nat) :
    retryDelays 1000 k
      = (List.range k).map (fun i => min (1000 * 2 ^ i) MAX_RETRY_DELAY) := by
  have h := retryDelays_closed k 0
  simpa using h

theorem retryableGeminiCall_exhausts (script : Nat → GeminiResult)
    (hfail : ∀ i, isRetryableResult (script i) = true) :
    ∀ n a d, RETRY_COUNT + 1 - a ≤ n →
    (retryableGeminiCall script a d).1
      = .error ("failed to get response after " ++ toString RETRY_COUNT ++ " attempts") := by
  intro n
  induction n with
  | zero =>
    intro a d ha
    rw [retryableGeminiCall, dif_pos (by simp only [RETRY_COUNT] at ha ⊢; omega)]
  | succ n ih =>
    intro a d ha
    by_cases hgt : a > RETRY_COUNT
    · rw [retryableGeminiCall, dif_pos hgt]
    · have h0 := hfail a
      cases hsc : script a with
      | resp w => rw [hsc] at h0; simp [isRetryableResult] at h0
      | err msg =>
        rw [hsc] at h0
        simp only [isRetryableResult] at h0
        rw [retryableGeminiCall_eq_err script a d msg hgt hsc, if_pos h0]
        exact ih (a + 1) (min (d * 2) MAX_RETRY_DELAY) (by simp only [RETRY_COUNT] at ha hgt ⊢; omega)

/-- C1: for every scripted sequence of `k < RETRY_COUNT` retryable failures
followed by a success, `retryableGeminiCall` (started as in the source with
`attempt = 0`, `delay = 1s`) returns that success, having slept
`min(1s * 2^i, 30s)` before the `i`-th retry; and on a script in which every
attempt fails retryably it returns the terminal exhausted-retries error. -/
theorem retryableGeminiCall_retry_spec
    (script : Nat → GeminiResult) (k v : Nat)
    (hk : k < RETRY_COUNT)
    (hfail : ∀ i, i < k → isRetryableResult (script i) = true)
    (hsucc : script k = .resp v)
    (script2 : Nat → GeminiResult)
    (hfail2 : ∀ i, isRetryableResult (script2 i) = true) :
    retryableGeminiCall script 0 1000
      = (.ok v, (List.range k).map (fun i => min (1000 * 2 ^ i) MAX_RETRY_DELAY)) ∧
    (retryableGeminiCall script2 0 1000).1
      = .error ("failed to get response after " ++ toString RETRY_COUNT ++ " attempts") := by
  constructor
  · rw [← retryDelays_base]
    exact retryableGeminiCall_succeeds script v k 0 1000 (by omega)
      (fun i hi => by simpa using hfail i hi) (by simpa using hsucc)
  · exact retryableGeminiCall_exhausts script2 hfail2 (RETRY_COUNT + 1) 0 1000 (by omega)

/-- A scripted backend: three rate-limit failures, then success. -/
def exScript : Nat → GeminiResult :=
  fun a => if a < 3 then .err "429 rate limited" else .resp 7

/-- A scripted backend that always fails with a transient error. -/
def exFailScript : Nat → GeminiResult :=
  fun _ => .err "503 service unavailable"

/-- Witness for C1 at a concrete script (three 429s then success, and an
always-503 script). -/
theorem retryableGeminiCall_retry_spec_witness :
    retryableGeminiCall exScript 0 1000
      = (.ok 7, (List.range 3).map (fun i => min (1000 * 2 ^ i) MAX_RETRY_DELAY)) ∧
    (retryableGeminiCall exFailScript 0 1000).1
      = .error ("failed to get response after " ++ toString RETRY_COUNT ++ " attempts") :=
  retryableGeminiCall_retry_spec exScript 3 7 (by decide)
    (by decide) (by decide) exFailScript
    (by
      intro i
      show isRetryableResult (GeminiResult.err "503 service unavailable") = true
      decide)

/-- A scripted backend: one bad-request (400) error, then success. -/
def ex400Script : Nat → GeminiResult :=
  fun a => if a = 0 then .err "400 bad request" else .resp 7

/-- C2 counterexample: a bad-request (400-class) backend error is *not*
returned immediately; the wrapper classifies it as retryable, sleeps once
(1000 ms recorded) and retries, obtaining the next scripted response. -/
theorem retryableGeminiCall_400_is_retried :
    isRetryableError "400 bad request" = true ∧
    retryableGeminiCall ex400Script 0 1000 = (.ok 7, [1000]) := by
  refine ⟨by decide, ?_⟩
  have h := retryableGeminiCall_succeeds ex400Script 7 1 0 1000 (by decide)
    (by decide) (by decide)
  exact h

/-- C2 (amended): the wrapper retries exactly when the error text contains
`"429"`, `"503"` or `"400"` — bad-request errors are retried like transient
ones; every failure whose text contains none of these substrings is
returned immediately, with no sleep and no further attempt. -/
theorem retryableGeminiCall_classification
    (script : Nat → GeminiResult) (msg : String) (d : Nat)
    (h0 : script 0 = .err msg) :
    (isRetryableError msg
        = (strContains msg "429" || strContains msg "503" || strContains msg "400")) ∧
    (isRetryableError msg = false →
      retryableGeminiCall script 0 d
        = (.error ("failed to get response: " ++ msg), [])) ∧
    (isRetryableError msg = true →
      retryableGeminiCall script 0 d
        = ((retryableGeminiCall script 1 (min (d * 2) MAX_RETRY_DELAY)).1,
            d :: (retryableGeminiCall script 1 (min (d * 2) MAX_RETRY_DELAY)).2)) := by
  refine ⟨rfl, ?_, ?_⟩
  · intro hnr
    rw [retryableGeminiCall_eq_err script 0 d msg (by decide) h0, if_neg (by simp [hnr])]
  · intro hr
    rw [retryableGeminiCall_eq_err script 0 d msg (by decide) h0, if_pos hr]

/-- A scripted backend that fails once with a permanent (auth) error. -/
def exPermScript : Nat → GeminiResult :=
  fun a => if a = 0 then .err "401 unauthorized" else .resp 7

/-- Witness for the amended C2: a 401 error is returned immediately as
non-retryable, with no sleeps. -/
theorem retryableGeminiCall_classification_witness :
    retryableGeminiCall exPermScript 0 1000
      = (.error ("failed to get response: " ++ "401 unauthorized"), []) :=
  (retryableGeminiCall_classification exPermScript "401 unauthorized" 1000
    (by decide)).2.1 (by decide)

/-! ## Quote repair (`src/ollama.go`)

`fixQuotes` iterates over the string; on Go's byte level `in[i+1]` and
`in[i-1]` are the neighbouring bytes, which for the ASCII strings the
claims quantify over coincide with the neighbouring characters.  The
embedding therefore works on `List Char`, carrying the previous character
explicitly and looking ahead at the head of the remaining list.  Go's
`in[i+1]` on the last byte panics with an index-out-of-range; the
embedding returns `none` in exactly that situation. -/

/-- The `{` character (written via its code point). -/
def lbrace : Char := Char.ofNat 123

/-- The `}` character (written via its code point). -/
def rbrace : Char := Char.ofNat 125

/-- `approvedSecondRunes` from `src/ollama.go` line 229: `: , }`. -/
def approvedSecondRunes : List Char := [':', ',', rbrace]

/-- `runeContains` from `src/ollama.go` lines 255-262. -/
def runeContains : List Char → Char → Bool
  | [], _ => false
  | r :: rest, i => if r = i then true else runeContains rest i

/-- The scanning loop of `fixQuotes` (`src/ollama.go` lines 227-253).
`prev` is the character before the current one (`in[i-1]`), `opn` the
"inside a string" flag (`open` in the source).  Returns `none` when the
source would panic (reading `in[i+1]` past the end of the string). -/
def fixQuotesAux : Option Char → Bool → List Char → Option (List Char)
  | _, _, [] => some []
  | prev, opn, c :: rest =>
    if c = '"' then
      if !opn then
        (fixQuotesAux (some c) true rest).map (fun r => c :: r)
      else
        match rest with
        | [] => none
        | next :: _ =>
          if runeContains approvedSecondRunes next then
            (fixQuotesAux (some c) false rest).map (fun r => c :: r)
          else if prev ≠ some '\\' then
            (fixQuotesAux (some c) opn rest).map (fun r => '\\' :: '"' :: r)
          else
            (fixQuotesAux (some c) opn rest).map (fun r => c :: r)
    else
      (fixQuotesAux (some c) opn rest).map (fun r => c :: r)

/-- `fixQuotes` from `src/ollama.go`: scan from the start, outside a string,
with no previous character. -/
def fixQuotes (s : List Char) : Option (List Char) :=
  fixQuotesAux none false s

/-! ### A JSON syntax checker

"Parses as valid JSON" in the specification refers to Go's
`encoding/json`, an external collaborator.  The checker below is a direct
recursive-descent implementation of the JSON grammar (RFC 8259: values,
objects, arrays, strings with escapes, numbers, literals), used as the
reference meaning of "valid JSON".  `parseValue` is fuelled; fuel
`length + 1` always suffices because every recursive descent consumes at
least one character. -/

/-- JSON whitespace (also Go's `\s` minus `\f`, see `isGoRegexWS`). -/
def isJsonWS (c : Char) : Bool :=
  c = ' ' || c = '\t' || c = '\n' || c = '\r'

/-- Skip insignificant whitespace. -/
def skipWS (s : List Char) : List Char :=
  s.dropWhile isJsonWS

/-- Parsed JSON values.  Numbers keep their raw text: no numeric semantics
is needed for any claim. -/
inductive Json where
  | null
  | bool (b : Bool)
  | num (raw : List Char)
  | str (s : List Char)
  | arr (elems : List Json)
  | obj (fields : List (List Char × Json))

mutual
/-- Structural equality test for `Json` (the nested induction defeats
`deriving DecidableEq`). -/
def jsonBeq : Json → Json → Bool
  | .null, .null => true
  | .bool a, .bool b => a == b
  | .num a, .num b => a == b
  | .str a, .str b => a == b
  | .arr a, .arr b => jsonListBeq a b
  | .obj a, .obj b => jsonFieldsBeq a b
  | _, _ => false
/-- Structural equality test for `Json` arrays. -/
def jsonListBeq : List Json → List Json → Bool
  | [], [] => true
  | x :: xs, y :: ys => jsonBeq x y && jsonListBeq xs ys
  | _, _ => false
/-- Structural equality test for `Json` object field lists. -/
def jsonFieldsBeq : List (List Char × Json) → List (List Char × Json) → Bool
  | [], [] => true
  | (k1, v1) :: xs, (k2, v2) :: ys => k1 == k2 && jsonBeq v1 v2 && jsonFieldsBeq xs ys
  | _, _ => false
end

mutual

theorem jsonBeq_iff : ∀ a b : Json, jsonBeq a b = true ↔ a = b := by
  intro a b
  cases a with
  | null => cases b <;> simp [jsonBeq]
  | bool x => cases b <;> simp [jsonBeq]
  | num x => cases b <;> simp [jsonBeq]
  | str x => cases b <;> simp [jsonBeq]
  | arr xs =>
    cases b
    case arr ys => simpa [jsonBeq] using jsonListBeq_iff xs ys
    all_goals simp [jsonBeq]
  | obj xs =>
    cases b
    case obj ys => simpa [jsonBeq] using jsonFieldsBeq_iff xs ys
    all_goals simp [jsonBeq]
termination_by a => (sizeOf a, 0)

theorem jsonListBeq_iff : ∀ a b : List Json, jsonListBeq a b = true ↔ a = b := by
  intro a b
  cases a with
  | nil => cases b <;> simp [jsonListBeq]
  | cons x xs =>
    cases b with
    | nil => simp [jsonListBeq]
    | cons y ys =>
      simp only [jsonListBeq, Bool.and_eq_true, List.cons.injEq]
      rw [jsonBeq_iff x y, jsonListBeq_iff xs ys]
termination_by a => (sizeOf a, 0)

theorem jsonFieldsBeq_iff : ∀ a b : List (List Char × Json),
    jsonFieldsBeq a b = true ↔ a = b := by
  intro a b
  cases a with
  | nil => cases b <;> simp [jsonFieldsBeq]
  | cons x xs =>
    cases b with
    | nil =>
      cases x with
      | mk k1 v1 => simp [jsonFieldsBeq]
    | cons y ys =>
      cases x with
      | mk k1 v1 =>
        cases y with
        | mk k2 v2 =>
          simp only [jsonFieldsBeq, Bool.and_eq_true, List.cons.injEq, Prod.mk.injEq,
            beq_iff_eq]
          rw [jsonBeq_iff v1 v2, jsonFieldsBeq_iff xs ys]
termination_by a => (sizeOf a, 0)

end

instance : DecidableEq Json := fun a b => decidable_of_iff _ (jsonBeq_iff a b)

/-- Value of a hexadecimal digit. -/
def hexDigitVal (c : Char) : Option Nat :=
  if '0' ≤ c ∧ c ≤ '9' then some (c.toNat - 48)
  else if 'a' ≤ c ∧ c ≤ 'f' then some (c.toNat - 87)
  else if 'A' ≤ c ∧ c ≤ 'F' then some (c.toNat - 55)
  else none

/-- Parse the body of a JSON string literal (after its opening quote),
returning the decoded contents and the input after the closing quote. -/
def parseStringBody : List Char → Option (List Char × List Char)
  | [] => none
  | c :: rest =>
    if c = '"' then some ([], rest)
    else if c = '\\' then
      match rest with
      | [] => none
      | e :: rest2 =>
        if e = '"' ∨ e = '\\' ∨ e = '/' then
          (parseStringBody rest2).map (fun p => (e :: p.1, p.2))
        else if e = 'b' then
          (parseStringBody rest2).map (fun p => (Char.ofNat 8 :: p.1, p.2))
        else if e = 'f' then
          (parseStringBody rest2).map (fun p => (Char.ofNat 12 :: p.1, p.2))
        else if e = 'n' then
          (parseStringBody rest2).map (fun p => ('\n' :: p.1, p.2))
        else if e = 'r' then
          (parseStringBody rest2).map (fun p => (Char.ofNat 13 :: p.1, p.2))
        else if e = 't' then
          (parseStringBody rest2).map (fun p => ('\t' :: p.1, p.2))
        else if e = 'u' then
          match rest2 with
          | h1 :: h2 :: h3 :: h4 :: rest3 =>
            match hexDigitVal h1, hexDigitVal h2, hexDigitVal h3, hexDigitVal h4 with
            | some v1, some v2, some v3, some v4 =>
              (parseStringBody rest3).map
                (fun p => (Char.ofNat (((v1 * 16 + v2) * 16 + v3) * 16 + v4) :: p.1, p.2))
            | _, _, _, _ => none
          | _ => none
        else none
    else if c.toNat < 32 then none
    else (parseStringBody rest).map (fun p => (c :: p.1, p.2))

/-- Strip an exact literal prefix. -/
def stripLit : List Char → List Char → Option (List Char)
  | [], s => some s
  | _ :: _, [] => none
  | c :: cs, x :: xs => if c = x then stripLit cs xs else none

/-- Decimal digit test. -/
def isDigit (c : Char) : Bool := '0' ≤ c && c ≤ '9'

/-- Parse the optional fraction part of a number. -/
def parseFracPart (s : List Char) : Option (List Char × List Char) :=
  match s with
  | '.' :: r =>
    let p := r.span isDigit
    if p.1 = [] then none else some ('.' :: p.1, p.2)
  | _ => some ([], s)

/-- Parse the optional exponent part of a number. -/
def parseExpPart (s : List Char) : Option (List Char × List Char) :=
  match s with
  | c :: r =>
    if c = 'e' ∨ c = 'E' then
      let q : List Char × List Char :=
        match r with
        | x :: r2 => if x = '+' ∨ x = '-' then ([x], r2) else ([], r)
        | [] => ([], r)
      let p := q.2.span isDigit
      if p.1 = [] then none else some (c :: q.1 ++ p.1, p.2)
    else some ([], s)
  | [] => some ([], [])

/-- Parse a JSON number (raw text kept). -/
def parseNumber (s : List Char) : Option (Json × List Char) :=
  let q : List Char × List Char :=
    match s with
    | '-' :: r => (['-'], r)
    | _ => ([], s)
  let ip := q.2.span isDigit
  if ip.1 = [] then none
  else
    match parseFracPart ip.2 with
    | none => none
    | some fp =>
      match parseExpPart fp.2 with
      | none => none
      | some ep => some (.num (q.1 ++ ip.1 ++ fp.1 ++ ep.1), ep.2)

mutual

/-- Parse one JSON value (fuelled recursive descent). -/
def parseValue : Nat → List Char → Option (Json × List Char)
  | 0, _ => none
  | fuel + 1, s =>
    match skipWS s with
    | [] => none
    | c :: rest =>
      if c = '"' then (parseStringBody rest).map (fun p => (.str p.1, p.2))
      else if c = lbrace then
        match skipWS rest with
        | c2 :: rest2 =>
          if c2 = rbrace then some (.obj [], rest2)
          else (parseFields fuel (skipWS rest)).map (fun p => (.obj p.1, p.2))
        | [] => none
      else if c = '[' then
        match skipWS rest with
        | c2 :: rest2 =>
          if c2 = ']' then some (.arr [], rest2)
          else (parseElems fuel (skipWS rest)).map (fun p => (.arr p.1, p.2))
        | [] => none
      else if c = 't' then (stripLit ['r', 'u', 'e'] rest).map (fun r => (.bool true, r))
      else if c = 'f' then (stripLit ['a', 'l', 's', 'e'] rest).map (fun r => (.bool false, r))
      else if c = 'n' then (stripLit ['u', 'l', 'l'] rest).map (fun r => (.null, r))
      else parseNumber (c :: rest)

/-- Parse a nonempty `"key": value` field list followed by `}`. -/
def parseFields : Nat → List Char → Option (List (List Char × Json) × List Char)
  | 0, _ => none
  | fuel + 1, s =>
    match skipWS s with
    | c :: rest =>
      if c = '"' then
        match parseStringBody rest with
        | some (key, r1) =>
          match skipWS r1 with
          | c2 :: r2 =>
            if c2 = ':' then
              match parseValue fuel r2 with
              | some (v, r3) =>
                match skipWS r3 with
                | c3 :: r4 =>
                  if c3 = ',' then (parseFields fuel r4).map (fun p => ((key, v) :: p.1, p.2))
                  else if c3 = rbrace then some ([(key, v)], r4)
                  else none
                | [] => none
              | none => none
            else none
          | [] => none
        | none => none
      else none
    | [] => none

/-- Parse a nonempty array element list followed by `]`. -/
def parseElems : Nat → List Char → Option (List Json × List Char)
  | 0, _ => none
  | fuel + 1, s =>
    match parseValue fuel s with
    | some (v, r1) =>
      match skipWS r1 with
      | c :: r2 =>
        if c = ',' then (parseElems fuel r2).map (fun p => (v :: p.1, p.2))
        else if c = ']' then some ([v], r2)
        else none
      | [] => none
    | none => none

end

/-- Parse a complete JSON document (one value, only whitespace after). -/
def parseJson (s : List Char) : Option Json :=
  match parseValue (s.length + 1) s with
  | some (v, rest) => if skipWS rest = [] then some v else none
  | none => none

/-- Whether a string is valid JSON. -/
def jsonValid (s : List Char) : Bool :=
  (parseJson s).isSome

/-- The quote-repair counterexample input: a JSON-like string whose only
defect is the unescaped quote inside the string value `x"y` (that quote is
followed by `y`, not by `:`/`,`/`}`). -/
def fixQuotesCex : List Char := ("\x7b\"a\": [\"x\"y\"]\x7d").toList

/-- The intended repair of `fixQuotesCex` (only the defective quote
escaped), showing the input is indeed recoverable JSON. -/
def fixQuotesCexIntended : List Char := ("\x7b\"a\": [\"x\\\"y\"]\x7d").toList

/-- C3 counterexample: on `{"a": ["x"y"]}` — whose only defect is the
unescaped quote before `y` — `fixQuotes` also escapes the legitimate
string-terminating quote (which is followed by `]`), producing
`{"a": ["x\"y\"]}`, which is *not* valid JSON; escaping only the defective
quote would have been valid JSON. -/
theorem fixQuotes_not_always_valid :
    fixQuotes fixQuotesCex = some (("\x7b\"a\": [\"x\\\"y\\\"]\x7d").toList) ∧
    jsonValid (("\x7b\"a\": [\"x\\\"y\\\"]\x7d").toList) = false ∧
    jsonValid fixQuotesCexIntended = true := by
  refine ⟨by decide, by decide, by decide⟩

/-! ### The recoverable fragment

The amended quote-repair property quantifies over "JSON-like" candidate
strings through a generator: documents made of objects and string values,
rendered compactly (every legitimate string-closing quote is immediately
followed by `:`, `,` or `}`), whose string contents may contain defective
unescaped quotes, each not immediately followed by `:`, `,` or `}`.  All
characters are printable ASCII (where Go's byte-level scanning coincides
with the character-level embedding) and contain no backslash, so the
unescaped quotes are the *only* defect. -/

mutual
/-- A JSON-like document: a string value (whose content may contain
defective unescaped quotes) or an object. -/
inductive JDoc where
  | jstr (content : List Char)
  | jobj (fields : JFields)
/-- The fields of a JSON-like object. -/
inductive JFields where
  | fnil
  | fcons (key : List Char) (v : JDoc) (rest : JFields)
end

mutual
/-- Render a document *with* its defective quotes left raw. -/
def renderDoc : JDoc → List Char
  | .jstr content => '"' :: (content ++ ['"'])
  | .jobj fs => lbrace :: renderFields fs
/-- Render an object's fields and the closing brace. -/
def renderFields : JFields → List Char
  | .fnil => [rbrace]
  | .fcons k v fs => '"' :: (k ++ '"' :: ':' :: (renderDoc v ++ renderRest fs))
/-- Render the continuation after one field: `,` and more fields, or `}`. -/
def renderRest : JFields → List Char
  | .fnil => [rbrace]
  | .fcons k v fs => ',' :: '"' :: (k ++ '"' :: ':' :: (renderDoc v ++ renderRest fs))
end

/-- Escape every quote of a string content (`"` becomes `\"`). -/
def escContent : List Char → List Char
  | [] => []
  | c :: rest => if c = '"' then '\\' :: '"' :: escContent rest else c :: escContent rest

mutual
/-- Render a document with every content quote escaped: the intended
repair, identical to `renderDoc` except for the inserted escapes. -/
def renderEscDoc : JDoc → List Char
  | .jstr content => '"' :: (escContent content ++ ['"'])
  | .jobj fs => lbrace :: renderEscFields fs
/-- Escaped rendering of an object's fields. -/
def renderEscFields : JFields → List Char
  | .fnil => [rbrace]
  | .fcons k v fs => '"' :: (k ++ '"' :: ':' :: (renderEscDoc v ++ renderEscRest fs))
/-- Escaped rendering of the continuation after one field. -/
def renderEscRest : JFields → List Char
  | .fnil => [rbrace]
  | .fcons k v fs => ',' :: '"' :: (k ++ '"' :: ':' :: (renderEscDoc v ++ renderEscRest fs))
end

mutual
/-- The JSON value a document denotes (keys and contents verbatim). -/
def denoteDoc : JDoc → Json
  | .jstr content => .str content
  | .jobj fs => .obj (denoteFields fs)
/-- The field list a field sequence denotes. -/
def denoteFields : JFields → List (List Char × Json)
  | .fnil => []
  | .fcons k v fs => (k, denoteDoc v) :: denoteFields fs
end

/-- Printable ASCII, not a backslash. -/
def goodChar (c : Char) : Bool :=
  c ≠ '\\' && 32 ≤ c.toNat && c.toNat < 127

/-- Key characters: printable ASCII, no backslash, no quote. -/
def goodKeyChar (c : Char) : Bool :=
  goodChar c && c ≠ '"'

/-- Admissible string contents: printable ASCII without backslashes, and
every (defective) quote not immediately followed by `:`, `,` or `}`. -/
def goodContent : List Char → Bool
  | [] => true
  | c :: rest =>
    goodChar c &&
    (if c = '"' then
      match rest with
      | [] => true
      | c2 :: _ => !(runeContains approvedSecondRunes c2)
    else true) &&
    goodContent rest

mutual
/-- Well-formedness of a document. -/
def goodDoc : JDoc → Bool
  | .jstr content => goodContent content
  | .jobj fs => goodFields fs
/-- Well-formedness of a field sequence. -/
def goodFields : JFields → Bool
  | .fnil => true
  | .fcons k v fs => k.all goodKeyChar && goodDoc v && goodFields fs
end

mutual
/-- Fuel sufficient for `parseValue` on the escaped rendering. -/
def needFuel : JDoc → Nat
  | .jstr _ => 1
  | .jobj fs => needFuelFields fs + 1
/-- Fuel sufficient for `parseFields` on the escaped rendering. -/
def needFuelFields : JFields → Nat
  | .fnil => 1
  | .fcons _ v fs => needFuel v + needFuelFields fs + 1
end

/-- Whether a document is a bare string value (whose rendering ends in a
quote, so that the repair scan needs an approved character after it). -/
def strTop : JDoc → Bool
  | .jstr _ => true
  | .jobj _ => false

/-- Whether the scan's one-character lookahead after a closing quote is one
of the approved characters. -/
def approvedHead : List Char → Bool
  | [] => false
  | c :: _ => runeContains approvedSecondRunes c

/-- Outside a string, the scan never reads the previous character, so the
result does not depend on it. -/
theorem fixQuotesAux_false_indep (s : List Char) (prev prev' : Option Char) :
    fixQuotesAux prev false s = fixQuotesAux prev' false s := by
  cases s with
  | nil => rfl
  | cons c rest => simp only [fixQuotesAux, Bool.not_false, if_true]

/-- Scanning a key body: plain characters are copied, and the closing
quote (followed by `:`) closes the string. -/
theorem fixQuotesAux_key (k : List Char) :
    ∀ s prev, k.all goodKeyChar = true →
    fixQuotesAux prev true (k ++ '"' :: ':' :: s)
      = (fixQuotesAux none false s).map (fun r => k ++ '"' :: ':' :: r) := by
  induction k with
  | nil =>
    intro s prev _
    rw [List.nil_append]
    rw [show fixQuotesAux prev true ('"' :: ':' :: s)
        = (fixQuotesAux (some '"') false (':' :: s)).map (fun r => '"' :: r) by
      simp [fixQuotesAux, runeContains, approvedSecondRunes]]
    rw [show fixQuotesAux (some '"') false (':' :: s)
        = (fixQuotesAux (some ':') false s).map (fun r => ':' :: r) by
      simp [fixQuotesAux]]
    rw [fixQuotesAux_false_indep s (some ':') none]
    cases fixQuotesAux none false s <;> rfl
  | cons c k ih =>
    intro s prev hall
    have hc : goodKeyChar c = true := by
      have := List.all_eq_true.mp hall c (List.mem_cons_self c k)
      exact this
    have hrest : k.all goodKeyChar = true := by
      apply List.all_eq_true.mpr
      intro x hx
      exact List.all_eq_true.mp hall x (List.mem_cons_of_mem c hx)
    have hcq : ¬ c = '"' := by
      simp only [goodKeyChar, Bool.and_eq_true, decide_eq_true_eq] at hc
      exact hc.2
    rw [List.cons_append]
    rw [show fixQuotesAux prev true (c :: (k ++ '"' :: ':' :: s))
        = (fixQuotesAux (some c) true (k ++ '"' :: ':' :: s)).map (fun r => c :: r) by
      simp [fixQuotesAux, hcq]]
    rw [ih s (some c) hrest]
    cases fixQuotesAux none false s <;> rfl

/-- Scanning a string-value body: defective quotes (never followed by an
approved character) are escaped, other characters are copied, and the
terminating quote (followed by an approved character) closes the string. -/
theorem fixQuotesAux_content (content : List Char) :
    ∀ s prev, goodContent content = true → approvedHead s = true →
    prev ≠ some '\\' →
    fixQuotesAux prev true (content ++ '"' :: s)
      = (fixQuotesAux none false s).map (fun r => escContent content ++ '"' :: r) := by
  induction content with
  | nil =>
    intro s prev _ hs _
    cases s with
    | nil => simp [approvedHead] at hs
    | cons x s' =>
      simp only [approvedHead] at hs
      rw [List.nil_append]
      rw [show fixQuotesAux prev true ('"' :: x :: s')
          = (fixQuotesAux (some '"') false (x :: s')).map (fun r => '"' :: r) by
        simp [fixQuotesAux, hs]]
      rw [fixQuotesAux_false_indep (x :: s') (some '"') none]
      cases fixQuotesAux none false (x :: s') <;> rfl
  | cons c content ih =>
    intro s prev hgood hs hprev
    have hparts := hgood
    simp only [goodContent, Bool.and_eq_true] at hparts
    obtain ⟨⟨hchar, hadj⟩, hrest⟩ := hparts
    have hnb : ¬ c = '\\' := by
      simp only [goodChar, Bool.and_eq_true, decide_eq_true_eq] at hchar
      exact hchar.1.1
    by_cases hcq : c = '"'
    · subst hcq
      have hesc : escContent ('"' :: content) = '\\' :: '"' :: escContent content := by
        simp [escContent]
      cases content with
      | nil =>
        rw [show (['"'] : List Char) ++ '"' :: s = '"' :: '"' :: s from rfl]
        rw [show fixQuotesAux prev true ('"' :: '"' :: s)
            = (fixQuotesAux (some '"') true ('"' :: s)).map (fun r => '\\' :: '"' :: r) by
          simp [fixQuotesAux, runeContains, approvedSecondRunes, rbrace, hprev]]
        have hih := ih s (some '"') (by rfl) hs (by simp)
        simp only [List.nil_append] at hih
        rw [hih, hesc]
        cases fixQuotesAux none false s <;> rfl
      | cons c2 content' =>
        simp only [if_pos rfl] at hadj
        have hc2 : runeContains approvedSecondRunes c2 = false := by
          cases h : runeContains approvedSecondRunes c2
          · rfl
          · rw [h] at hadj; simp at hadj
        rw [List.cons_append]
        rw [show fixQuotesAux prev true ('"' :: (c2 :: content' ++ '"' :: s))
            = (fixQuotesAux (some '"') true (c2 :: content' ++ '"' :: s)).map
                (fun r => '\\' :: '"' :: r) by
          simp [fixQuotesAux, hc2, hprev]]
        rw [ih s (some '"') hrest hs (by simp)]
        rw [hesc]
        cases fixQuotesAux none false s <;> rfl
    · have hesc : escContent (c :: content) = c :: escContent content := by
        simp [escContent, hcq]
      rw [List.cons_append]
      rw [show fixQuotesAux prev true (c :: (content ++ '"' :: s))
          = (fixQuotesAux (some c) true (content ++ '"' :: s)).map (fun r => c :: r) by
        simp [fixQuotesAux, hcq]]
      rw [ih s (some c) hrest hs (by simp [hnb])]
      rw [hesc]
      cases fixQuotesAux none false s <;> rfl

theorem renderRest_fcons (k : List Char) (v : JDoc) (fs : JFields) :
    renderRest (.fcons k v fs) = ',' :: renderFields (.fcons k v fs) := rfl

theorem renderEscRest_fcons (k : List Char) (v : JDoc) (fs : JFields) :
    renderEscRest (.fcons k v fs) = ',' :: renderEscFields (.fcons k v fs) := rfl

theorem approvedHead_renderRest (fs : JFields) (s : List Char) :
    approvedHead (renderRest fs ++ s) = true := by
  cases fs with
  | fnil =>
    simp [renderRest, approvedHead, runeContains, approvedSecondRunes]
  | fcons k v fs =>
    simp [renderRest, approvedHead, runeContains, approvedSecondRunes]

mutual

/-- The repair scan maps the defective rendering of a document to its
escaped rendering, then continues outside a string. -/
theorem fix_doc (d : JDoc) : ∀ s prev, goodDoc d = true →
    (strTop d = true → approvedHead s = true) →
    fixQuotesAux prev false (renderDoc d ++ s)
      = (fixQuotesAux none false s).map (fun r => renderEscDoc d ++ r) := by
  cases d with
  | jstr content =>
    intro s prev hgood htop
    have hs : approvedHead s = true := htop rfl
    rw [show renderDoc (.jstr content) ++ s = '"' :: (content ++ '"' :: s) by
      simp [renderDoc]]
    rw [show fixQuotesAux prev false ('"' :: (content ++ '"' :: s))
        = (fixQuotesAux (some '"') true (content ++ '"' :: s)).map (fun r => '"' :: r) by
      simp [fixQuotesAux]]
    rw [fixQuotesAux_content content s (some '"') hgood hs (by simp)]
    cases fixQuotesAux none false s <;> simp [renderEscDoc]
  | jobj fs =>
    intro s prev hgood _
    rw [show renderDoc (.jobj fs) ++ s = lbrace :: (renderFields fs ++ s) by
      simp [renderDoc]]
    rw [show fixQuotesAux prev false (lbrace :: (renderFields fs ++ s))
        = (fixQuotesAux (some lbrace) false (renderFields fs ++ s)).map
            (fun r => lbrace :: r) by
      simp [fixQuotesAux, lbrace]]
    rw [fix_fields fs s (some lbrace) hgood]
    cases fixQuotesAux none false s <;> simp [renderEscDoc]
termination_by (sizeOf d, 0)

/-- The repair scan on a rendered field sequence (including the closing
brace). -/
theorem fix_fields (fs : JFields) : ∀ s prev, goodFields fs = true →
    fixQuotesAux prev false (renderFields fs ++ s)
      = (fixQuotesAux none false s).map (fun r => renderEscFields fs ++ r) := by
  cases fs with
  | fnil =>
    intro s prev _
    rw [show renderFields .fnil ++ s = rbrace :: s by simp [renderFields]]
    rw [show fixQuotesAux prev false (rbrace :: s)
        = (fixQuotesAux (some rbrace) false s).map (fun r => rbrace :: r) by
      simp [fixQuotesAux, rbrace]]
    rw [fixQuotesAux_false_indep s (some rbrace) none]
    cases fixQuotesAux none false s <;> simp [renderEscFields]
  | fcons k v fs =>
    intro s prev hgood
    have hparts := hgood
    simp only [goodFields, Bool.and_eq_true] at hparts
    obtain ⟨⟨hk, hv⟩, hfs⟩ := hparts
    rw [show renderFields (.fcons k v fs) ++ s
        = '"' :: (k ++ '"' :: ':' :: (renderDoc v ++ (renderRest fs ++ s))) by
      simp [renderFields]]
    rw [show fixQuotesAux prev false
          ('"' :: (k ++ '"' :: ':' :: (renderDoc v ++ (renderRest fs ++ s))))
        = (fixQuotesAux (some '"') true
            (k ++ '"' :: ':' :: (renderDoc v ++ (renderRest fs ++ s)))).map
            (fun r => '"' :: r) by
      simp [fixQuotesAux]]
    rw [fixQuotesAux_key k (renderDoc v ++ (renderRest fs ++ s)) (some '"') hk]
    rw [fix_doc v (renderRest fs ++ s) none hv
      (fun _ => approvedHead_renderRest fs s)]
    rw [fix_rest fs s none hfs]
    cases fixQuotesAux none false s <;> simp [renderEscFields]
termination_by (sizeOf fs, 0)

/-- The repair scan on the rendered continuation after a field. -/
theorem fix_rest (fs : JFields) : ∀ s prev, goodFields fs = true →
    fixQuotesAux prev false (renderRest fs ++ s)
      = (fixQuotesAux none false s).map (fun r => renderEscRest fs ++ r) := by
  cases fs with
  | fnil =>
    intro s prev _
    rw [show renderRest .fnil ++ s = rbrace :: s by simp [renderRest]]
    rw [show fixQuotesAux prev false (rbrace :: s)
        = (fixQuotesAux (some rbrace) false s).map (fun r => rbrace :: r) by
      simp [fixQuotesAux, rbrace]]
    rw [fixQuotesAux_false_indep s (some rbrace) none]
    cases fixQuotesAux none false s <;> simp [renderEscRest]
  | fcons k v fs =>
    intro s prev hgood
    rw [renderRest_fcons, List.cons_append]
    rw [show fixQuotesAux prev false (',' :: (renderFields (.fcons k v fs) ++ s))
        = (fixQuotesAux (some ',') false (renderFields (.fcons k v fs) ++ s)).map
            (fun r => ',' :: r) by
      simp [fixQuotesAux]]
    rw [fix_fields (.fcons k v fs) s (some ',') hgood]
    cases fixQuotesAux none false s <;> simp [renderEscRest_fcons]
termination_by (sizeOf fs, 1)

end

theorem skipWS_not_ws (c : Char) (s : List Char) (h : isJsonWS c = false) :
    skipWS (c :: s) = c :: s := by
  simp [skipWS, List.dropWhile_cons, h]

theorem parseStringBody_close (s : List Char) :
    parseStringBody ('"' :: s) = some ([], s) := by
  conv_lhs => unfold parseStringBody
  simp

theorem parseStringBody_escq (s : List Char) :
    parseStringBody ('\\' :: '"' :: s)
      = (parseStringBody s).map (fun p => ('"' :: p.1, p.2)) := by
  conv_lhs => unfold parseStringBody
  simp

theorem parseStringBody_copy (c : Char) (s : List Char)
    (hcq : ¬ c = '"') (hnb : c ≠ '\\') (hlo : 32 ≤ c.toNat) :
    parseStringBody (c :: s) = (parseStringBody s).map (fun p => (c :: p.1, p.2)) := by
  conv_lhs => unfold parseStringBody
  simp [hcq, hnb, Nat.not_lt.mpr hlo]

/-- The string parser inverts `escContent` on admissible contents. -/
theorem parseStringBody_escContent (content : List Char) :
    ∀ s, goodContent content = true →
    parseStringBody (escContent content ++ '"' :: s) = some (content, s) := by
  induction content with
  | nil => intro s _; simp [escContent, parseStringBody_close]
  | cons c content ih =>
    intro s hgood
    simp only [goodContent, Bool.and_eq_true] at hgood
    obtain ⟨⟨hchar, _⟩, hrest⟩ := hgood
    simp only [goodChar, Bool.and_eq_true, decide_eq_true_eq] at hchar
    obtain ⟨⟨hnb, hlo⟩, _⟩ := hchar
    by_cases hcq : c = '"'
    · subst hcq
      rw [show escContent ('"' :: content) ++ '"' :: s
          = '\\' :: '"' :: (escContent content ++ '"' :: s) by simp [escContent]]
      rw [parseStringBody_escq, ih s hrest]
      rfl
    · rw [show escContent (c :: content) ++ '"' :: s
          = c :: (escContent content ++ '"' :: s) by simp [escContent, hcq]]
      rw [parseStringBody_copy c _ hcq hnb hlo, ih s hrest]
      rfl

/-- The string parser reads a quote-free key verbatim. -/
theorem parseStringBody_key (k : List Char) :
    ∀ s, k.all goodKeyChar = true →
    parseStringBody (k ++ '"' :: s) = some (k, s) := by
  induction k with
  | nil => intro s _; simp [parseStringBody_close]
  | cons c k ih =>
    intro s hall
    have hc := List.all_eq_true.mp hall c (List.mem_cons_self c k)
    have hrest : k.all goodKeyChar = true := by
      apply List.all_eq_true.mpr
      intro x hx
      exact List.all_eq_true.mp hall x (List.mem_cons_of_mem c hx)
    simp only [goodKeyChar, goodChar, Bool.and_eq_true, decide_eq_true_eq] at hc
    obtain ⟨⟨⟨hnb, hlo⟩, _⟩, hcq⟩ := hc
    rw [List.cons_append]
    rw [parseStringBody_copy c _ hcq hnb hlo, ih s hrest]
    rfl

theorem parseValue_quote (fuel : Nat) (rest : List Char) :
    parseValue (fuel + 1) ('"' :: rest)
      = (parseStringBody rest).map (fun p => (Json.str p.1, p.2)) := by
  conv_lhs => unfold parseValue
  rw [skipWS_not_ws '"' rest (by decide)]
  simp

theorem parseValue_obj_empty (fuel : Nat) (s : List Char) :
    parseValue (fuel + 1) (lbrace :: rbrace :: s) = some (.obj [], s) := by
  conv_lhs => unfold parseValue
  rw [skipWS_not_ws lbrace (rbrace :: s) (by decide)]
  simp [show ¬ (lbrace = '"') from by decide, skipWS_not_ws rbrace s (by decide)]

theorem parseValue_obj_fields (fuel : Nat) (rest : List Char) :
    parseValue (fuel + 1) (lbrace :: '"' :: rest)
      = (parseFields fuel ('"' :: rest)).map (fun p => (Json.obj p.1, p.2)) := by
  conv_lhs => unfold parseValue
  rw [skipWS_not_ws lbrace ('"' :: rest) (by decide)]
  simp [show ¬ (lbrace = '"') from by decide, skipWS_not_ws '"' rest (by decide),
    show ¬ ('"' = rbrace) from by decide]

theorem parseFields_cons (fuel : Nat) (k : List Char) (rest : List Char)
    (hk : k.all goodKeyChar = true) :
    parseFields (fuel + 1) ('"' :: (k ++ '"' :: ':' :: rest))
      = (match parseValue fuel rest with
         | some (v, r3) =>
           (match skipWS r3 with
            | c3 :: r4 =>
              if c3 = ',' then (parseFields fuel r4).map (fun p => ((k, v) :: p.1, p.2))
              else if c3 = rbrace then some ([(k, v)], r4)
              else none
            | [] => none)
         | none => none) := by
  conv_lhs => unfold parseFields
  rw [skipWS_not_ws '"' _ (by decide)]
  simp [parseStringBody_key k _ hk, skipWS_not_ws ':' rest (by decide)]

mutual

theorem parse_doc (d : JDoc) : ∀ fuel s, goodDoc d = true → needFuel d ≤ fuel →
    parseValue fuel (renderEscDoc d ++ s) = some (denoteDoc d, s) := by
  cases d with
  | jstr content =>
    intro fuel s hgood hfuel
    obtain ⟨f, rfl⟩ : ∃ f, fuel = f + 1 := ⟨fuel - 1, by simp [needFuel] at hfuel; omega⟩
    rw [show renderEscDoc (.jstr content) ++ s = '"' :: (escContent content ++ '"' :: s) by
      simp [renderEscDoc]]
    rw [parseValue_quote, parseStringBody_escContent content s hgood]
    rfl
  | jobj fs =>
    intro fuel s hgood hfuel
    obtain ⟨f, rfl⟩ : ∃ f, fuel = f + 1 := ⟨fuel - 1, by simp [needFuel] at hfuel; omega⟩
    have hf : needFuelFields fs ≤ f := by simp [needFuel] at hfuel; omega
    cases fs with
    | fnil =>
      rw [show renderEscDoc (.jobj .fnil) ++ s = lbrace :: rbrace :: s by
        simp [renderEscDoc, renderEscFields]]
      rw [parseValue_obj_empty]
      rfl
    | fcons k v fs2 =>
      simp only [goodDoc, goodFields, Bool.and_eq_true] at hgood
      obtain ⟨⟨hk, hv⟩, hfs⟩ := hgood
      rw [show renderEscDoc (.jobj (.fcons k v fs2)) ++ s
          = lbrace :: '"' :: (k ++ '"' :: ':' :: (renderEscDoc v ++ (renderEscRest fs2 ++ s))) by
        simp [renderEscDoc, renderEscFields]]
      rw [parseValue_obj_fields]
      rw [parse_fields k v fs2 f s hk hv hfs
        (by simp [needFuelFields] at hf; omega)]
      rfl
termination_by sizeOf d

theorem parse_fields (k : List Char) (v : JDoc) (fs : JFields) :
    ∀ fuel s, k.all goodKeyChar = true → goodDoc v = true → goodFields fs = true →
    needFuel v + needFuelFields fs + 1 ≤ fuel →
    parseFields fuel ('"' :: (k ++ '"' :: ':' :: (renderEscDoc v ++ (renderEscRest fs ++ s))))
      = some ((k, denoteDoc v) :: denoteFields fs, s) := by
  intro fuel s hk hv hfs hfuel
  obtain ⟨f, rfl⟩ : ∃ f, fuel = f + 1 := ⟨fuel - 1, by omega⟩
  rw [parseFields_cons f k _ hk]
  rw [parse_doc v f (renderEscRest fs ++ s) hv (by omega)]
  cases fs with
  | fnil =>
    rw [show renderEscRest .fnil ++ s = rbrace :: s by simp [renderEscRest]]
    simp only []
    rw [skipWS_not_ws rbrace s (by decide)]
    simp [show ¬ (rbrace = ',') from by decide, denoteFields]
  | fcons k2 v2 fs3 =>
    simp only [goodFields, Bool.and_eq_true] at hfs
    obtain ⟨⟨hk2, hv2⟩, hfs3⟩ := hfs
    rw [show renderEscRest (.fcons k2 v2 fs3) ++ s
        = ',' :: ('"' :: (k2 ++ '"' :: ':' :: (renderEscDoc v2 ++ (renderEscRest fs3 ++ s)))) by
      simp [renderEscRest]]
    simp only []
    rw [skipWS_not_ws ',' _ (by decide)]
    simp only [if_pos rfl]
    rw [parse_fields k2 v2 fs3 f s hk2 hv2 hfs3
      (by simp [needFuelFields] at hfuel; omega)]
    rfl
termination_by sizeOf v + sizeOf fs + 1

end

mutual

theorem needFuel_le (d : JDoc) : needFuel d ≤ (renderEscDoc d).length + 1 := by
  cases d with
  | jstr content => simp [needFuel]
  | jobj fs =>
    have h := needFuelFields_le fs
    simp only [needFuel, renderEscDoc, List.length_cons]
    omega
termination_by (sizeOf d, 0)

theorem needFuelFields_le (fs : JFields) :
    needFuelFields fs ≤ (renderEscFields fs).length + 1 := by
  cases fs with
  | fnil => simp [needFuelFields, renderEscFields]
  | fcons k v fs =>
    have h1 := needFuel_le v
    have h2 := needFuelFields_le_rest fs
    simp only [needFuelFields, renderEscFields, List.length_cons, List.length_append]
    omega
termination_by (sizeOf fs, 0)

theorem needFuelFields_le_rest (fs : JFields) :
    needFuelFields fs ≤ (renderEscRest fs).length + 1 := by
  cases fs with
  | fnil => simp [needFuelFields, renderEscRest]
  | fcons k v fs =>
    have h := needFuelFields_le (JFields.fcons k v fs)
    rw [renderEscRest_fcons, List.length_cons]
    omega
termination_by (sizeOf fs, 1)

end

/-- C3 (amended): for JSON-like object documents over printable ASCII whose
only defect is unescaped quotes inside string values, each not immediately
followed by `:`, `,` or `}`, *and* in which every legitimate
string-terminating quote is immediately followed by `:`, `,` or `}` (as in
the generated fragment: objects and string values rendered compactly, no
arrays), `fixQuotes` terminates normally, produces exactly the escaped
rendering (the original content with only the defective quotes escaped),
and that output parses as valid JSON denoting the intended document. -/
theorem fixQuotes_repairs (fs : JFields) (hgood : goodFields fs = true) :
    fixQuotes (renderDoc (.jobj fs)) = some (renderEscDoc (.jobj fs)) ∧
    parseJson (renderEscDoc (.jobj fs)) = some (denoteDoc (.jobj fs)) := by
  constructor
  · have h := fix_doc (.jobj fs) [] none hgood (by intro hh; simp [strTop] at hh)
    rw [List.append_nil] at h
    rw [fixQuotes, h]
    simp [fixQuotesAux]
  · have hb : needFuel (.jobj fs) ≤ (renderEscDoc (.jobj fs)).length + 1 :=
      needFuel_le _
    have hp := parse_doc (.jobj fs) ((renderEscDoc (.jobj fs)).length + 1) [] hgood hb
    rw [List.append_nil] at hp
    simp [parseJson, hp, skipWS]

/-- A concrete defective tool call: `{"name":"pwd","arguments":{"note":"it"s"}}`
(the quote in `it"s` is unescaped). -/
def exDoc : JFields :=
  .fcons ("name".toList) (.jstr ("pwd".toList))
    (.fcons ("arguments".toList)
      (.jobj (.fcons ("note".toList) (.jstr ['i', 't', '"', 's']) .fnil))
      .fnil)

/-- Witness for the amended C3 at the concrete defective tool call. -/
theorem fixQuotes_repairs_witness :
    fixQuotes (renderDoc (.jobj exDoc)) = some (renderEscDoc (.jobj exDoc)) ∧
    parseJson (renderEscDoc (.jobj exDoc)) = some (denoteDoc (.jobj exDoc)) :=
  fixQuotes_repairs exDoc (by decide)


/-! ## Tool-call extraction (`src/ollama.go`, `unmarshalToolCall`)

The regular expression `\{"name":\s*"[^"]*",\s*"arguments":` is matched
directly (it is deterministic); `strings.ReplaceAll(s, "```", "")` and
`strings.TrimSuffix` are modelled on character lists; Go's
`json.Unmarshal` into `ollama.ToolCallFunction` is modelled with the JSON
checker above (object required; `name` must be a string and `arguments` an
object when present; missing or null fields yield zero values). -/

/-- Go's regexp `\s`: space, tab, newline, form feed, carriage return. -/
def isGoRegexWS (c : Char) : Bool :=
  c = ' ' || c = '\t' || c = '\n' || c = Char.ofNat 12 || c = Char.ofNat 13

/-- Whether `toolCallRegex` matches at the start of `s`. -/
def matchToolCallPrefix (s : List Char) : Bool :=
  match stripLit (lbrace :: ("\"name\":").toList) s with
  | none => false
  | some r1 =>
    match r1.dropWhile isGoRegexWS with
    | '"' :: r3 =>
      match r3.dropWhile (fun c => ! (c = '"')) with
      | '"' :: ',' :: r5 =>
        (stripLit (("\"arguments\":").toList) (r5.dropWhile isGoRegexWS)).isSome
      | _ => false
    | _ => false

/-- `toolCallRegex.FindString` followed by `strings.Index`: the suffix of
the message content from the first regex match, if any. -/
def findToolCall : List Char → Option (List Char)
  | [] => none
  | c :: rest =>
    if matchToolCallPrefix (c :: rest) then some (c :: rest)
    else findToolCall rest

/-- The backquote character. -/
def backtick : Char := Char.ofNat 96

/-- `strings.ReplaceAll(s, "```", "")`: drop every (non-overlapping,
leftmost-first) occurrence of three backquotes. -/
def removeTicks : List Char → List Char
  | c1 :: c2 :: c3 :: rest =>
    if c1 = backtick ∧ c2 = backtick ∧ c3 = backtick then removeTicks rest
    else c1 :: removeTicks (c2 :: c3 :: rest)
  | s => s

/-- `strings.TrimSuffix`. -/
def trimSuffixList (suf s : List Char) : List Char :=
  if suf.isSuffixOf s then s.take (s.length - suf.length) else s

/-- The `</tool_call>` wrapper removed by `unmarshalToolCall`. -/
def closeTag : List Char := ("</tool_call>").toList

/-- Last-wins field lookup (Go's `encoding/json` keeps the last duplicate). -/
def lookupLast (key : List Char) : List (List Char × Json) → Option Json
  | [] => none
  | (k, v) :: rest =>
    match lookupLast key rest with
    | some r => some r
    | none => if k = key then some v else none

/-- Decode a `string`-typed struct field (missing or null: zero value). -/
def decodeStringField : Option Json → Option (List Char)
  | none => some []
  | some (.str n) => some n
  | some .null => some []
  | some _ => none

/-- Decode a map-typed struct field (missing or null: zero value). -/
def decodeArgsField : Option Json → Option (List (List Char × Json))
  | none => some []
  | some (.obj a) => some a
  | some .null => some []
  | some _ => none

/-- `ollama.ToolCallFunction`: a name and an arguments map. -/
structure OllamaToolCallFunction where
  name : List Char
  arguments : List (List Char × Json)
deriving DecidableEq

/-- `ollama.ToolCall`. -/
structure OllamaToolCall where
  function : OllamaToolCallFunction
deriving DecidableEq

/-- `ollama.Message`, with the fields the orchestrator uses. -/
structure OllamaMessage where
  role : String
  content : List Char
  toolCalls : List OllamaToolCall
deriving DecidableEq

/-- `json.Unmarshal` of a candidate tool-call string into
`ollama.ToolCallFunction`. -/
def decodeToolCallFunction (s : List Char) : Option OllamaToolCallFunction :=
  match parseJson s with
  | some (.obj fields) =>
    match decodeStringField (lookupLast (("name").toList) fields),
        decodeArgsField (lookupLast (("arguments").toList) fields) with
    | some n, some a => some ⟨n, a⟩
    | _, _ => none
  | some _ => none
  | none => none

/-- The outcome of `unmarshalToolCall`: the (possibly updated) message, a
message-plus-error, or a panic inherited from `fixQuotes`. -/
inductive UnmarshalResult where
  | ok (m : OllamaMessage)
  | fail (m : OllamaMessage)
  | panic

/-- `unmarshalToolCall` from `src/ollama.go` lines 191-225. -/
def unmarshalToolCall (message : OllamaMessage) : UnmarshalResult :=
  match findToolCall message.content with
  | none => .ok message
  | some toolString0 =>
    let ts1 := removeTicks toolString0
    let ts2 := trimSuffixList closeTag ts1
    match decodeToolCallFunction ts2 with
    | some f => .ok { message with toolCalls := message.toolCalls ++ [⟨f⟩] }
    | none =>
      match fixQuotes ts2 with
      | none => .panic
      | some ts3 =>
        match decodeToolCallFunction ts3 with
        | some f => .ok { message with toolCalls := message.toolCalls ++ [⟨f⟩] }
        | none => .fail message

/-- A truncated tool call whose candidate string ends in a quote. -/
def crashContent : List Char :=
  ("\x7b\"name\": \"a\", \"arguments\": \x7b\"x\": \"b\"").toList

/-- The message carrying `crashContent`. -/
def crashMsg : OllamaMessage :=
  { role := "assistant", content := crashContent, toolCalls := [] }

/-- C8 (code bug): on a message whose embedded tool-call fragment ends in a
quote — here `\x7b"name": "a", "arguments": \x7b"x": "b"` — the strict decode
fails, `fixQuotes` is applied, and its scan reads one byte past the end of
the string (`in[i+1]`), i.e. the extraction path panics instead of
reporting a tool-role error; likewise `fixQuotes` alone panics on `""`. -/
theorem unmarshalToolCall_panics :
    unmarshalToolCall crashMsg = .panic ∧
    fixQuotes (("\"\"").toList) = none :=
  ⟨rfl, rfl⟩


/-! ## OpenAI tool execution (`src/unnamed/part_014`)

`executeToolCall` and `processToolCalls`.  The tool registry and bodies
are external collaborators: they are scripted by `runTool`, which returns
for each `{name, parsed arguments}` pair either a finished `(result, err)`
pair (the result already rendered as by `fmt.Sprintf("%v", ...)`) or
`hangs`, the latter modelling a body that outlives the 5-minute per-call
timeout so that the `select` takes the `toolCtx.Done()` branch. -/

/-- `openai.ChatCompletionMessageToolCall.Function`. -/
structure OpenAIFunction where
  name : String
  arguments : String
deriving DecidableEq

/-- `openai.ChatCompletionMessageToolCall`. -/
structure OpenAIToolCall where
  id : String
  type : String
  function : OpenAIFunction
deriving DecidableEq

/-- `openai.ChatCompletionMessage`, with the fields the orchestrator uses. -/
structure OpenAIMessage where
  role : String
  content : String
  toolCalls : List OpenAIToolCall
deriving DecidableEq

/-- A scripted tool behaviour: the body finishes with a rendered result
and an optional error, or outlives the per-call timeout. -/
inductive ToolOutcome where
  | finishes (result : String) (err : Option String)
  | hangs

/-- `json.Unmarshal` of the raw arguments into `map[string]interface{}`:
the text must be a JSON object (or null, which leaves the map nil). -/
def parseArgsMap (s : String) : Option (List (List Char × Json)) :=
  match parseJson s.toList with
  | some (.obj f) => some f
  | some .null => some []
  | _ => none

/-- `executeToolCall` from `src/unnamed/part_014` lines 293-336: parse the
arguments, run the tool under the 5-minute timeout, and return
`(resultStr, err)` (`resultStr` is `""` whenever `err ≠ none`).  The third
component records the `RunTool` invocation actually made, if any — the
execution trace. -/
def executeToolCall (runTool : String → List (List Char × Json) → ToolOutcome)
    (toolCall : OpenAIToolCall) :
    String × Option String × Option (String × List (List Char × Json)) :=
  match parseArgsMap toolCall.function.arguments with
  | none => ("", some "failed to parse tool arguments", none)
  | some args =>
    match runTool toolCall.function.name args with
    | .hangs =>
      ("", some ("tool call " ++ toolCall.function.name ++ " timed out after 5 minutes"),
        some (toolCall.function.name, args))
    | .finishes _ (some e) =>
      ("", some ("tool execution failed: " ++ e), some (toolCall.function.name, args))
    | .finishes res none => (res, none, some (toolCall.function.name, args))

/-- The state `processToolCalls` accumulates. -/
structure ProcessToolCallsResult where
  processed : Bool
  toolResponses : List OpenAIMessage
  ids : Nat → Option String
  executed : List (String × List (List Char × Json))

/-- The loop of `processToolCalls` (`src/unnamed/part_014` lines 339-367):
for every call of type `"function"`, execute it and append one tool-role
message whose content is the result string (empty on failure; the error is
only logged), recording `toolCallIDs[len(messages)+len(toolResponses)-1] =
toolCall.ID`.  `executed` is the trace of `RunTool` invocations. -/
def processToolCallsLoop (runTool : String → List (List Char × Json) → ToolOutcome)
    (messagesLen : Nat) :
    List OpenAIToolCall → ProcessToolCallsResult → ProcessToolCallsResult
  | [], acc => acc
  | tc :: rest, acc =>
    if tc.type = "function" then
      let r := executeToolCall runTool tc
      let toolResponse : OpenAIMessage := { role := "tool", content := r.1, toolCalls := [] }
      let responses := acc.toolResponses ++ [toolResponse]
      let nextIndex := messagesLen + responses.length - 1
      processToolCallsLoop runTool messagesLen rest
        { processed := true,
          toolResponses := responses,
          ids := fun i => if i = nextIndex then some tc.id else acc.ids i,
          executed := acc.executed ++ (r.2.2).toList }
    else
      processToolCallsLoop runTool messagesLen rest acc

/-- `processToolCalls`, entered as in the source with no responses yet and
`toolCallsProcessed = false`. -/
def processToolCalls (runTool : String → List (List Char × Json) → ToolOutcome)
    (toolCalls : List OpenAIToolCall) (messagesLen : Nat) (ids : Nat → Option String) :
    ProcessToolCallsResult :=
  processToolCallsLoop runTool messagesLen toolCalls
    { processed := false, toolResponses := [], ids := ids, executed := [] }

/-! ## Ollama tool execution (`src/ollama.go`, `handleOllamaResponse`) -/

/-- `fmt.Sprintf("Tool %s returned: %v", name, result)`. -/
def ollamaResultMsg (name result : List Char) : List Char :=
  ("Tool ").toList ++ name ++ (" returned: ").toList ++ result

/-- The tool-call loop of `handleOllamaResponse` (`src/ollama.go` lines
154-177): hash each call's function (sha256 over its canonical JSON
marshalling — modelled as the function value itself, `json.Marshal` being
canonical on Go maps and sha256 collisions out of scope), skip calls whose
hash was already seen, run the tool (`runTool f` scripts the `%v`
rendering of what `RunTool` returns) and append one tool-role message per
executed call.  Returns the executed functions, in order, and the appended
messages. -/
def ollamaToolLoop (runTool : OllamaToolCallFunction → List Char) :
    List OllamaToolCall → List OllamaToolCallFunction →
    List OllamaToolCallFunction × List OllamaMessage
  | [], _ => ([], [])
  | tc :: rest, seen =>
    if tc.function ∈ seen then ollamaToolLoop runTool rest seen
    else
      let p := ollamaToolLoop runTool rest (tc.function :: seen)
      (tc.function :: p.1,
        { role := "tool",
          content := ollamaResultMsg tc.function.name (runTool tc.function),
          toolCalls := [] } :: p.2)

theorem ollamaToolLoop_spec (runTool : OllamaToolCallFunction → List Char)
    (batch : List OllamaToolCall) : ∀ seen,
    ((ollamaToolLoop runTool batch seen).2
      = ((ollamaToolLoop runTool batch seen).1).map
          (fun f => { role := "tool", content := ollamaResultMsg f.name (runTool f),
                      toolCalls := [] })) ∧
    (∀ f ∈ (ollamaToolLoop runTool batch seen).1, f ∉ seen) ∧
    ((ollamaToolLoop runTool batch seen).1).Nodup ∧
    (∀ tc ∈ batch, tc.function ∈ seen ∨ tc.function ∈ (ollamaToolLoop runTool batch seen).1) := by
  induction batch with
  | nil => intro seen; simp [ollamaToolLoop]
  | cons tc rest ih =>
    intro seen
    by_cases hmem : tc.function ∈ seen
    · rw [show ollamaToolLoop runTool (tc :: rest) seen = ollamaToolLoop runTool rest seen by
        simp [ollamaToolLoop, hmem]]
      obtain ⟨ih1, ih2, ih3, ih4⟩ := ih seen
      refine ⟨ih1, ih2, ih3, ?_⟩
      intro tc2 htc2
      rcases List.mem_cons.mp htc2 with h | h
      · subst h; exact Or.inl hmem
      · exact ih4 tc2 h
    · rw [show ollamaToolLoop runTool (tc :: rest) seen
          = (tc.function :: (ollamaToolLoop runTool rest (tc.function :: seen)).1,
             { role := "tool",
               content := ollamaResultMsg tc.function.name (runTool tc.function),
               toolCalls := [] }
               :: (ollamaToolLoop runTool rest (tc.function :: seen)).2) by
        simp [ollamaToolLoop, hmem]]
      obtain ⟨ih1, ih2, ih3, ih4⟩ := ih (tc.function :: seen)
      refine ⟨?_, ?_, ?_, ?_⟩
      · simp only [List.map_cons]
        rw [ih1]
      · intro f hf
        rcases List.mem_cons.mp hf with h | h
        · subst h; exact hmem
        · intro hcon
          exact (ih2 f h) (List.mem_cons_of_mem _ hcon)
      · refine List.Nodup.cons ?_ ih3
        intro hcon
        exact (ih2 _ hcon) (List.mem_cons_self _ _)
      · intro tc2 htc2
        rcases List.mem_cons.mp htc2 with h | h
        · subst h; exact Or.inr (List.mem_cons_self _ _)
        · rcases ih4 tc2 h with h2 | h2
          · rcases List.mem_cons.mp h2 with h3 | h3
            · exact Or.inr (by rw [h3]; exact List.mem_cons_self _ _)
            · exact Or.inl h3
          · exact Or.inr (List.mem_cons_of_mem _ h2)

/-- C4 (amended): in the Ollama handler, duplicate `{name, arguments}`
pairs within one batch are silently suppressed: the executed calls are
pairwise distinct, every call in the batch is executed at least once (its
first occurrence), exactly one tool-result message is appended per
*executed* call (in execution order), and skipped duplicates produce
neither a message nor an error.  (The OpenAI handler has no such
suppression; see the counterexample.) -/
theorem ollamaToolCalls_dedup (runTool : OllamaToolCallFunction → List Char)
    (batch : List OllamaToolCall) :
    ((ollamaToolLoop runTool batch []).2
      = ((ollamaToolLoop runTool batch []).1).map
          (fun f => { role := "tool", content := ollamaResultMsg f.name (runTool f),
                      toolCalls := [] })) ∧
    ((ollamaToolLoop runTool batch []).1).Nodup ∧
    (∀ tc ∈ batch, tc.function ∈ (ollamaToolLoop runTool batch []).1) := by
  obtain ⟨h1, _, h3, h4⟩ := ollamaToolLoop_spec runTool batch []
  refine ⟨h1, h3, ?_⟩
  intro tc htc
  rcases h4 tc htc with h | h
  · simp at h
  · exact h

/-- A duplicated OpenAI tool call (`pwd` with empty arguments, twice). -/
def dupCall : OpenAIToolCall :=
  { id := "call_1", type := "function",
    function := { name := "pwd", arguments := "\x7b\x7d" } }

/-- A scripted tool for the duplicate-execution counterexample. -/
def dupRunTool : String → List (List Char × Json) → ToolOutcome :=
  fun _ _ => .finishes "/tmp" none

/-- C4 counterexample: the OpenAI handler (`processToolCalls`,
`src/unnamed/part_014` lines 339-367) has no duplicate suppression: a
batch of two identical `{name, arguments}` calls invokes `RunTool` twice
and produces two tool-result messages. -/
theorem processToolCalls_executes_duplicates :
    (processToolCalls dupRunTool [dupCall, dupCall] 1 (fun _ => none)).executed
      = [("pwd", []), ("pwd", [])] ∧
    (processToolCalls dupRunTool [dupCall, dupCall] 1 (fun _ => none)).toolResponses
      = [{ role := "tool", content := "/tmp", toolCalls := [] },
         { role := "tool", content := "/tmp", toolCalls := [] }] := by
  refine ⟨by rfl, by rfl⟩


/-- A tool call whose body fails with error `boom`. -/
def boomCall : OpenAIToolCall :=
  { id := "call_9", type := "function",
    function := { name := "fetchPage", arguments := "\x7b\x7d" } }

/-- The scripted failing tool. -/
def boomRunTool : String → List (List Char × Json) → ToolOutcome :=
  fun _ _ => .finishes "" (some "boom")

/-- C7 counterexample: when a tool fails, a tool-role message *is*
appended and the round continues, but its content is the empty string —
`executeToolCall` returns `("", err)` and `processToolCalls` only logs the
error — so the failure is *not* folded into the message content as a
human-readable error string. -/
theorem processToolCalls_failure_content_empty :
    (executeToolCall boomRunTool boomCall).2.1 = some "tool execution failed: boom" ∧
    (processToolCalls boomRunTool [boomCall] 1 (fun _ => none)).toolResponses
      = [{ role := "tool", content := "", toolCalls := [] }] ∧
    strContains "" "boom" = false :=
  ⟨rfl, rfl, rfl⟩

theorem processToolCallsLoop_spec (runTool : String → List (List Char × Json) → ToolOutcome)
    (messagesLen : Nat) (calls : List OpenAIToolCall)
    (hfn : ∀ tc ∈ calls, tc.type = "function") :
    ∀ acc,
    (processToolCallsLoop runTool messagesLen calls acc).toolResponses
      = acc.toolResponses ++ calls.map (fun tc =>
          { role := "tool", content := (executeToolCall runTool tc).1, toolCalls := [] }) ∧
    (processToolCallsLoop runTool messagesLen calls acc).processed
      = (acc.processed || !calls.isEmpty) := by
  induction calls with
  | nil => intro acc; simp [processToolCallsLoop]
  | cons tc rest ih =>
    intro acc
    have htc : tc.type = "function" := hfn tc (List.mem_cons_self tc rest)
    have hrest : ∀ tc2 ∈ rest, tc2.type = "function" :=
      fun tc2 h2 => hfn tc2 (List.mem_cons_of_mem tc h2)
    rw [show processToolCallsLoop runTool messagesLen (tc :: rest) acc
        = processToolCallsLoop runTool messagesLen rest
            { processed := true,
              toolResponses := acc.toolResponses ++
                [{ role := "tool", content := (executeToolCall runTool tc).1,
                   toolCalls := [] }],
              ids := fun i =>
                if i = messagesLen + acc.toolResponses.length
                then some tc.id else acc.ids i,
              executed := acc.executed ++ ((executeToolCall runTool tc).2.2).toList } by
      simp [processToolCallsLoop, htc]]
    obtain ⟨ih1, ih2⟩ := ih hrest _
    refine ⟨?_, ?_⟩
    · rw [ih1]
      simp
    · rw [ih2]
      simp

theorem processToolCalls_processed
    (runTool : String → List (List Char × Json) → ToolOutcome)
    (calls : List OpenAIToolCall) (messagesLen : Nat) (ids : Nat → Option String)
    (hfn : ∀ tc ∈ calls, tc.type = "function") :
    (processToolCalls runTool calls messagesLen ids).processed = !calls.isEmpty := by
  have h := (processToolCallsLoop_spec runTool messagesLen calls hfn
    { processed := false, toolResponses := [], ids := ids, executed := [] }).2
  simpa [processToolCalls] using h

/-- C7 (amended): for every batch of function-typed tool calls — whatever
the scripted outcomes: tool error, unknown tool (surfaced by `RunTool` as
an error), unparsable arguments, or a body that outlives the 5-minute
timeout — the executor appends exactly one tool-role result message per
call, in order, and returns normally (the source's error return is always
nil), so the round continues and no call blocks it; but on failure the
message content is the empty string (the error is only logged), not an
error string. -/
theorem processToolCalls_always_responds
    (runTool : String → List (List Char × Json) → ToolOutcome)
    (calls : List OpenAIToolCall) (messagesLen : Nat) (ids : Nat → Option String)
    (hfn : ∀ tc ∈ calls, tc.type = "function") :
    (processToolCalls runTool calls messagesLen ids).toolResponses
      = calls.map (fun tc =>
          { role := "tool", content := (executeToolCall runTool tc).1, toolCalls := [] }) ∧
    (processToolCalls runTool calls messagesLen ids).processed = !calls.isEmpty := by
  obtain ⟨h1, h2⟩ := processToolCallsLoop_spec runTool messagesLen calls hfn
    { processed := false, toolResponses := [], ids := ids, executed := [] }
  exact ⟨by simpa [processToolCalls] using h1, by simpa [processToolCalls] using h2⟩

/-- Scripted tools for the C7 witness: one hangs, one fails, one succeeds. -/
def mixedRunTool : String → List (List Char × Json) → ToolOutcome :=
  fun n _ =>
    if n = "hang" then .hangs
    else if n = "boom" then .finishes "" (some "boom")
    else .finishes "/tmp" none

/-- The C7 witness batch: a hanging tool, a failing tool, a succeeding tool. -/
def mixedCalls : List OpenAIToolCall :=
  [{ id := "c1", type := "function", function := { name := "hang", arguments := "\x7b\x7d" } },
   { id := "c2", type := "function", function := { name := "boom", arguments := "\x7b\x7d" } },
   { id := "c3", type := "function", function := { name := "pwd", arguments := "\x7b\x7d" } }]

/-- Witness for the amended C7 at the mixed batch. -/
theorem processToolCalls_always_responds_witness :
    (processToolCalls mixedRunTool mixedCalls 0 (fun _ => none)).toolResponses
      = mixedCalls.map (fun tc =>
          { role := "tool", content := (executeToolCall mixedRunTool tc).1, toolCalls := [] }) ∧
    (processToolCalls mixedRunTool mixedCalls 0 (fun _ => none)).processed
      = !mixedCalls.isEmpty :=
  processToolCalls_always_responds mixedRunTool mixedCalls 0 (fun _ => none) (by decide)


/-! ## Replaying history (`messagesToParamUnion`, `src/unnamed/part_014`)

The Go function walks the message array with index `i`, mutating the
`toolCallIDs` map (an assistant message with tool calls registers the id
of its `j`-th call for the message at index `i+1+j` when that message has
role `tool`; a tool message at index `i` looks its id up in the map).  The
embedding carries the mutable state — previous message, index, map — in
`MtpuState`; each step also receives the remaining suffix `rest`, through
which the source reads `messages[i+1+j]`. -/

/-- The parameter union sent to the backend
(`openai.ChatCompletionMessageParamUnion`). -/
inductive ParamMessage where
  | user (content : String)
  | assistant (content : String)
  | system (content : String)
  | assistantWithCalls (m : OpenAIMessage)
  | tool (content : String) (id : String)
deriving DecidableEq

/-- The mutable state of the `messagesToParamUnion` loop. -/
structure MtpuState where
  prev : Option OpenAIMessage
  idx : Nat
  ids : Nat → Option String

/-- The inner loop of the assistant case: register
`toolCallIDs[i+1+j] = toolCalls[j].ID` whenever `messages[i+1+j]` exists
and has role `tool` (`rest[j]` is `messages[i+1+j]`). -/
def writeIds (i : Nat) : List OpenAIToolCall → List OpenAIMessage → Nat →
    (Nat → Option String) → (Nat → Option String)
  | [], _, _, ids => ids
  | tc :: tcs, rest, j, ids =>
    let ids2 :=
      match rest[j]? with
      | some msg =>
        if msg.role = "tool" then
          fun x => if x = i + 1 + j then some tc.id else ids x
        else ids
      | none => ids
    writeIds i tcs rest (j + 1) ids2

/-- One iteration of the `messagesToParamUnion` loop on message `msg`,
with `rest` the remaining messages. -/
def mtpuStep (st : MtpuState) (msg : OpenAIMessage) (rest : List OpenAIMessage) :
    List ParamMessage × MtpuState :=
  if msg.role = "user" then
    ([.user msg.content], { st with prev := some msg, idx := st.idx + 1 })
  else if msg.role = "assistant" then
    if msg.toolCalls.length > 0 then
      ([.assistantWithCalls msg],
        { prev := some msg, idx := st.idx + 1,
          ids := writeIds st.idx msg.toolCalls rest 0 st.ids })
    else
      ([.assistant msg.content], { st with prev := some msg, idx := st.idx + 1 })
  else if msg.role = "system" then
    ([.system msg.content], { st with prev := some msg, idx := st.idx + 1 })
  else if msg.role = "tool" then
    match st.ids st.idx with
    | some id => ([.tool msg.content id], { st with prev := some msg, idx := st.idx + 1 })
    | none =>
      let foundID :=
        match st.prev with
        | some pm =>
          if pm.role = "assistant" then
            match pm.toolCalls with
            | t :: _ => t.id
            | [] => ""
          else ""
        | none => ""
      if foundID ≠ "" then
        ([.tool msg.content foundID], { st with prev := some msg, idx := st.idx + 1 })
      else
        ([.assistant msg.content], { st with prev := some msg, idx := st.idx + 1 })
  else
    ([], { st with prev := some msg, idx := st.idx + 1 })

/-- The full loop: concatenate each step's output. -/
def mtpuGo (st : MtpuState) : List OpenAIMessage → List ParamMessage
  | [] => []
  | msg :: rest => (mtpuStep st msg rest).1 ++ mtpuGo (mtpuStep st msg rest).2 rest

/-- `messagesToParamUnion` from `src/unnamed/part_014` lines 369-417,
entered with the freshly created (`ids0`) map. -/
def messagesToParamUnion (messages : List OpenAIMessage) (ids0 : Nat → Option String) :
    List ParamMessage :=
  mtpuGo { prev := none, idx := 0, ids := ids0 } messages

theorem writeIds_cons (i : Nat) (tc : OpenAIToolCall) (tcs : List OpenAIToolCall)
    (rest : List OpenAIMessage) (j0 : Nat) (ids : Nat → Option String) :
    writeIds i (tc :: tcs) rest j0 ids
      = writeIds i tcs rest (j0 + 1)
          (match rest[j0]? with
           | some msg =>
             if msg.role = "tool" then
               fun x => if x = i + 1 + j0 then some tc.id else ids x
             else ids
           | none => ids) := rfl

theorem writeIds_below (i : Nat) (tcs : List OpenAIToolCall) (rest : List OpenAIMessage) :
    ∀ j0 ids x, x < i + 1 + j0 → writeIds i tcs rest j0 ids x = ids x := by
  induction tcs with
  | nil => intro j0 ids x _; rfl
  | cons tc tcs ih =>
    intro j0 ids x hx
    rw [writeIds_cons]
    rw [ih (j0 + 1) _ x (by omega)]
    cases hr : rest[j0]? with
    | none => rfl
    | some msg =>
      by_cases hm : msg.role = "tool"
      · simp [hm, if_neg (show ¬ x = i + 1 + j0 by omega)]
      · simp [hm]

theorem writeIds_hit (i : Nat) (tmsgs post : List OpenAIMessage)
    (htool : ∀ m ∈ tmsgs, m.role = "tool") :
    ∀ tcs j0 ids jj, (hj : jj < tcs.length) → j0 + tcs.length ≤ tmsgs.length →
    writeIds i tcs (tmsgs ++ post) j0 ids (i + 1 + (j0 + jj)) = some (tcs[jj]).id := by
  intro tcs
  induction tcs with
  | nil => intro j0 ids jj hj _; simp at hj
  | cons tc tcs ih =>
    intro j0 ids jj hj hlen
    have hj0 : j0 < tmsgs.length := by simp at hlen; omega
    have hr : (tmsgs ++ post)[j0]? = some (tmsgs[j0]) := by
      rw [List.getElem?_append]
      rw [if_pos hj0]
      exact List.getElem?_eq_getElem hj0
    have hmem : tmsgs[j0] ∈ tmsgs := List.getElem_mem hj0
    have hrole : (tmsgs[j0]).role = "tool" := htool _ hmem
    rw [writeIds_cons, hr]
    simp only [hrole, reduceIte]
    cases jj with
    | zero =>
      rw [writeIds_below i tcs (tmsgs ++ post) (j0 + 1) _ _ (by omega)]
      simp
    | succ k =>
      have hrec := ih (j0 + 1) (fun x => if x = i + 1 + j0 then some tc.id else ids x) k
        (by simpa using hj) (by simp at hlen ⊢; omega)
      rw [show i + 1 + (j0 + (k + 1)) = i + 1 + (j0 + 1 + k) by omega]
      rw [hrec]
      simp

theorem mtpu_toolPass (tmsgs : List OpenAIMessage) :
    ∀ tcs2 : List OpenAIToolCall, ∀ st2 : MtpuState, ∀ post : List OpenAIMessage,
    (∀ m ∈ tmsgs, m.role = "tool") → tmsgs.length = tcs2.length →
    (∀ j, (hj : j < tcs2.length) → st2.ids (st2.idx + j) = some (tcs2[j]).id) →
    ∃ outPost, mtpuGo st2 (tmsgs ++ post)
      = (List.zipWith (fun m tc => ParamMessage.tool m.content tc.id) tmsgs tcs2) ++ outPost := by
  induction tmsgs with
  | nil => intro tcs2 st2 post _ _ _; exact ⟨mtpuGo st2 post, by simp⟩
  | cons m tmsgs ih =>
    intro tcs2 st2 post htool hlen hids
    cases tcs2 with
    | nil => simp at hlen
    | cons tc tcs2 =>
      have hm : m.role = "tool" := htool m (List.mem_cons_self m tmsgs)
      have h0 : st2.ids st2.idx = some tc.id := by
        have := hids 0 (by simp)
        simpa using this
      rw [show (m :: tmsgs) ++ post = m :: (tmsgs ++ post) from rfl, mtpuGo]
      rw [show mtpuStep st2 m (tmsgs ++ post)
          = ([.tool m.content tc.id], { st2 with prev := some m, idx := st2.idx + 1 }) by
        simp [mtpuStep, hm, h0]]
      obtain ⟨outPost, hrec⟩ := ih tcs2 { st2 with prev := some m, idx := st2.idx + 1 } post
        (fun x hx => htool x (List.mem_cons_of_mem m hx)) (by simpa using hlen)
        (fun j hj => by
          have := hids (j + 1) (by simpa using Nat.succ_lt_succ hj)
          simpa [Nat.add_assoc, Nat.add_comm 1 j] using this)
      exact ⟨outPost, by rw [hrec]; simp⟩

theorem mtpu_group (amsg : OpenAIMessage) (tmsgs post : List OpenAIMessage)
    (hrole : amsg.role = "assistant") (hne : amsg.toolCalls ≠ [])
    (hlen : tmsgs.length = amsg.toolCalls.length)
    (htool : ∀ m ∈ tmsgs, m.role = "tool") :
    ∀ pre : List OpenAIMessage, ∀ st : MtpuState,
    ∃ outPre outPost,
      mtpuGo st (pre ++ amsg :: (tmsgs ++ post))
        = outPre ++ ParamMessage.assistantWithCalls amsg ::
            ((List.zipWith (fun m tc => ParamMessage.tool m.content tc.id)
              tmsgs amsg.toolCalls) ++ outPost) := by
  intro pre
  induction pre with
  | nil =>
    intro st
    rw [List.nil_append, mtpuGo]
    have hcalls : amsg.toolCalls.length > 0 := by
      cases hc : amsg.toolCalls with
      | nil => exact absurd hc hne
      | cons a b => simp
    rw [show mtpuStep st amsg (tmsgs ++ post)
        = ([.assistantWithCalls amsg],
            { prev := some amsg, idx := st.idx + 1,
              ids := writeIds st.idx amsg.toolCalls (tmsgs ++ post) 0 st.ids }) by
      simp [mtpuStep, hrole, hcalls]]
    obtain ⟨outPost, hpass⟩ := mtpu_toolPass tmsgs amsg.toolCalls
      { prev := some amsg, idx := st.idx + 1,
        ids := writeIds st.idx amsg.toolCalls (tmsgs ++ post) 0 st.ids } post htool hlen
      (fun j hj => by
        show writeIds st.idx amsg.toolCalls (tmsgs ++ post) 0 st.ids (st.idx + 1 + j)
          = some (amsg.toolCalls[j]).id
        have := writeIds_hit st.idx tmsgs post htool amsg.toolCalls 0 st.ids j hj
          (by omega)
        simpa using this)
    refine ⟨[], outPost, ?_⟩
    rw [hpass]
    simp
  | cons m pre ih =>
    intro st
    rw [List.cons_append, mtpuGo]
    obtain ⟨o1, o2, heq⟩ := ih (mtpuStep st m (pre ++ amsg :: (tmsgs ++ post))).2
    refine ⟨(mtpuStep st m (pre ++ amsg :: (tmsgs ++ post))).1 ++ o1, o2, ?_⟩
    rw [heq]
    simp


theorem ollamaToolLoop_distinct (runTool : OllamaToolCallFunction → List Char)
    (batch : List OllamaToolCall) :
    ∀ seen, (∀ tc ∈ batch, tc.function ∉ seen) →
    ((batch.map (fun tc => tc.function)).Nodup) →
    ollamaToolLoop runTool batch seen
      = (batch.map (fun tc => tc.function),
         batch.map (fun tc =>
           { role := "tool",
             content := ollamaResultMsg tc.function.name (runTool tc.function),
             toolCalls := [] })) := by
  induction batch with
  | nil => intro seen _ _; rfl
  | cons tc rest ih =>
    intro seen hseen hnodup
    have hmem : tc.function ∉ seen := hseen tc (List.mem_cons_self tc rest)
    rw [show ollamaToolLoop runTool (tc :: rest) seen
        = (tc.function :: (ollamaToolLoop runTool rest (tc.function :: seen)).1,
           { role := "tool",
             content := ollamaResultMsg tc.function.name (runTool tc.function),
             toolCalls := [] }
             :: (ollamaToolLoop runTool rest (tc.function :: seen)).2) by
      simp [ollamaToolLoop, hmem]]
    simp only [List.map_cons, List.nodup_cons] at hnodup
    have hrec := ih (tc.function :: seen)
      (fun tc2 h2 => by
        intro hcon
        rcases List.mem_cons.mp hcon with h | h
        · exact hnodup.1 (h ▸ List.mem_map_of_mem (fun tc => tc.function) h2)
        · exact hseen tc2 (List.mem_cons_of_mem tc h2) h)
      hnodup.2
    rw [hrec]
    simp

/-- C9: tool-result correlation.  For the id-carrying backend
(`messagesToParamUnion`): when the transcript contains an assistant
message bearing tool calls immediately followed by its tool-result
messages, the replay sends the `j`-th tool-result as a tool message
carrying the id of the `j`-th tool call, unchanged, directly after the
replayed assistant message.  For the id-less backend (Ollama): the
tool-result messages appended by the handler are exactly one per call, in
the calls' order, immediately following the assistant message (here for a
batch with no duplicate functions, which the handler would suppress). -/
theorem toolResult_correlation
    (pre : List OpenAIMessage) (amsg : OpenAIMessage) (tmsgs post : List OpenAIMessage)
    (ids0 : Nat → Option String)
    (hrole : amsg.role = "assistant") (hne : amsg.toolCalls ≠ [])
    (hlen : tmsgs.length = amsg.toolCalls.length)
    (htool : ∀ m ∈ tmsgs, m.role = "tool")
    (runTool : OllamaToolCallFunction → List Char) (batch : List OllamaToolCall)
    (hnodup : (batch.map (fun tc => tc.function)).Nodup) :
    (∃ outPre outPost,
      messagesToParamUnion (pre ++ amsg :: (tmsgs ++ post)) ids0
        = outPre ++ ParamMessage.assistantWithCalls amsg ::
            ((List.zipWith (fun m tc => ParamMessage.tool m.content tc.id)
              tmsgs amsg.toolCalls) ++ outPost)) ∧
    (ollamaToolLoop runTool batch []).2
      = batch.map (fun tc =>
          { role := "tool",
            content := ollamaResultMsg tc.function.name (runTool tc.function),
            toolCalls := [] }) := by
  constructor
  · exact mtpu_group amsg tmsgs post hrole hne hlen htool pre
      { prev := none, idx := 0, ids := ids0 }
  · rw [ollamaToolLoop_distinct runTool batch [] (fun tc _ => List.not_mem_nil _) hnodup]

/-- Concrete data for the C9 witness: an assistant message carrying two
tool calls, followed by its two results. -/
def wAssistantMsg : OpenAIMessage :=
  { role := "assistant", content := "",
    toolCalls :=
      [{ id := "call_a", type := "function",
         function := { name := "pwd", arguments := "\x7b\x7d" } },
       { id := "call_b", type := "function",
         function := { name := "ls", arguments := "\x7b\x7d" } }] }

/-- The two tool-result messages of the C9 witness. -/
def wToolMsgs : List OpenAIMessage :=
  [{ role := "tool", content := "/tmp", toolCalls := [] },
   { role := "tool", content := "a.txt", toolCalls := [] }]

/-- A duplicate-free Ollama batch for the C9 witness. -/
def wOllamaBatch : List OllamaToolCall :=
  [{ function := { name := ("pwd").toList, arguments := [] } },
   { function := { name := ("ls").toList, arguments := [] } }]

/-- Witness for C9 at a concrete transcript and batch. -/
theorem toolResult_correlation_witness :
    (∃ outPre outPost,
      messagesToParamUnion
          ([{ role := "system", content := "sys", toolCalls := [] },
            { role := "user", content := "hi", toolCalls := [] }]
            ++ wAssistantMsg :: (wToolMsgs
              ++ [{ role := "assistant", content := "done", toolCalls := [] }]))
          (fun _ => none)
        = outPre ++ ParamMessage.assistantWithCalls wAssistantMsg ::
            ((List.zipWith (fun m tc => ParamMessage.tool m.content tc.id)
              wToolMsgs wAssistantMsg.toolCalls) ++ outPost)) ∧
    (ollamaToolLoop (fun _ => ("ok").toList) wOllamaBatch []).2
      = wOllamaBatch.map (fun tc =>
          { role := "tool",
            content := ollamaResultMsg tc.function.name ((fun _ => ("ok").toList) tc.function),
            toolCalls := [] }) :=
  toolResult_correlation
    [{ role := "system", content := "sys", toolCalls := [] },
     { role := "user", content := "hi", toolCalls := [] }]
    wAssistantMsg wToolMsgs
    [{ role := "assistant", content := "done", toolCalls := [] }]
    (fun _ => none) rfl (by decide) rfl (by decide)
    (fun _ => ("ok").toList) wOllamaBatch (by decide)


/-! ## Context compaction (`src/unnamed/part_014`, lines 234-290) -/

/-- The three-way outcome of a Go call: a value, a returned error, or a
panic (index out of range). -/
inductive GoResult (α : Type) where
  | ok (a : α)
  | fail (msg : String)
  | panic

/-- The model fields the OpenAI turn handlers read.  `numCtx` is
`m.Parameters[NumCtx].(int)` — `none` when the key is missing or not an
`int`; `paramsPresent` is whether `m.Parameters` is non-nil. -/
structure OpenAIModel where
  paramsPresent : Bool
  numCtx : Option Int
  maxTurns : Nat
  systemPrompt : String

/-- `messagesToString` from `src/unnamed/part_014` lines 235-245. -/
def messagesToString : List OpenAIMessage → Bool → String
  | [], _ => ""
  | msg :: rest, includeSystem =>
    if !includeSystem && msg.role = "system" then messagesToString rest includeSystem
    else ("\x7b\"Role\": \"" ++ msg.role ++ "\", \"content\": \"" ++ msg.content ++ "\"\x7d")
      ++ messagesToString rest includeSystem

/-- The compaction instruction of `compact`. -/
def compactPrompt : String :=
  "Compact this conversation into 5000 words or less. Do not include any word counts or summarizing. Just return the summarized content.\n"

/-- `compact` from `src/unnamed/part_014` lines 266-290, with the
summarizing backend call scripted by `generate`.  `messages[0]` (and
`messages[1]` when the head is a system message) panic on a too-short
list. -/
def compact (generate : String → Except String String)
    (messages : List OpenAIMessage) : GoResult (List OpenAIMessage) :=
  match generate (compactPrompt ++ messagesToString messages false) with
  | .error e => .fail e
  | .ok response =>
    match messages with
    | [] => .panic
    | m0 :: rest =>
      if m0.role = "system" then
        match rest with
        | [] => .panic
        | m1 :: _ =>
          .ok [m0, m1, { role := "user", content := response, toolCalls := [] }]
      else
        .ok [m0, { role := "user", content := response, toolCalls := [] }]

/-- `handleContextLength` from `src/unnamed/part_014` lines 247-264, with
the tokenizer scripted by `count`. -/
def handleContextLength (m : OpenAIModel) (count : String → Nat)
    (generate : String → Except String String) (messages : List OpenAIMessage) :
    GoResult (List OpenAIMessage) :=
  match m.numCtx with
  | none => .fail "failed to parse num_ctx for model"
  | some maxContext =>
    if (count (messagesToString messages true) : Int) > maxContext then
      compact generate messages
    else
      .ok messages

/-- C6: when the estimated token count of the transcript is within the
configured budget, `handleContextLength` returns the message list
unchanged — hence running it twice in a row without new messages is a
no-op — and when the estimate exceeds the budget it returns exactly
{the system message if present, the first user message, one user-role
message whose content is the model-generated summary} and nothing else. -/
theorem handleContextLength_eq (m : OpenAIModel) (count : String → Nat)
    (generate : String → Except String String) (messages : List OpenAIMessage)
    (mc : Int) (hctx : m.numCtx = some mc) :
    handleContextLength m count generate messages
      = if (count (messagesToString messages true) : Int) > mc then
          compact generate messages
        else .ok messages := by
  rw [handleContextLength, hctx]

theorem handleContextLength_within (m : OpenAIModel) (count : String → Nat)
    (generate : String → Except String String) (messages : List OpenAIMessage)
    (mc : Int) (hctx : m.numCtx = some mc)
    (hle : (count (messagesToString messages true) : Int) ≤ mc) :
    handleContextLength m count generate messages = .ok messages := by
  rw [handleContextLength_eq m count generate messages mc hctx]
  rw [if_neg (by omega : ¬ ((count (messagesToString messages true) : Int) > mc))]

theorem handleContextLength_spec (m : OpenAIModel) (count : String → Nat)
    (generate : String → Except String String) (messages : List OpenAIMessage)
    (mc : Int) (hctx : m.numCtx = some mc) :
    ((count (messagesToString messages true) : Int) ≤ mc →
      handleContextLength m count generate messages = .ok messages) ∧
    (∀ summary, (count (messagesToString messages true) : Int) > mc →
      generate (compactPrompt ++ messagesToString messages false) = .ok summary →
      ((∀ sys u rest, messages = sys :: u :: rest → sys.role = "system" →
        handleContextLength m count generate messages
          = .ok [sys, u, { role := "user", content := summary, toolCalls := [] }]) ∧
       (∀ u rest, messages = u :: rest → ¬ u.role = "system" →
        handleContextLength m count generate messages
          = .ok [u, { role := "user", content := summary, toolCalls := [] }]))) := by
  constructor
  · intro hle
    exact handleContextLength_within m count generate messages mc hctx hle
  · intro summary hgt hgen
    constructor
    · intro sys u rest hmsgs hsys
      rw [handleContextLength_eq m count generate messages mc hctx, if_pos hgt, hmsgs]
      rw [show compact generate (sys :: u :: rest)
          = .ok [sys, u, { role := "user", content := summary, toolCalls := [] }] by
        rw [compact, ← hmsgs, hgen, hmsgs]
        simp [hsys]]
    · intro u rest hmsgs hu
      rw [handleContextLength_eq m count generate messages mc hctx, if_pos hgt, hmsgs]
      rw [show compact generate (u :: rest)
          = .ok [u, { role := "user", content := summary, toolCalls := [] }] by
        rw [compact, ← hmsgs, hgen, hmsgs]
        simp [hu]]

/-- A concrete over-budget transcript for the C6 witness. -/
def cmpMessages : List OpenAIMessage :=
  [{ role := "system", content := "be brief", toolCalls := [] },
   { role := "user", content := "first question", toolCalls := [] },
   { role := "assistant", content := "a very long answer", toolCalls := [] }]

/-- A scripted tokenizer for the C6 witness: counts characters. -/
def cmpCount : String → Nat := fun s => s.length

/-- A scripted summarizing backend for the C6 witness. -/
def cmpGenerate : String → Except String String := fun _ => .ok "summary!"

/-- Witness for C6 at a concrete model and transcript. -/
theorem handleContextLength_spec_witness :
    ((cmpCount (messagesToString cmpMessages true) : Int) ≤ 30 →
      handleContextLength ⟨true, some 30, 0, ""⟩ cmpCount cmpGenerate cmpMessages
        = .ok cmpMessages) ∧
    (∀ summary, (cmpCount (messagesToString cmpMessages true) : Int) > 30 →
      cmpGenerate (compactPrompt ++ messagesToString cmpMessages false) = .ok summary →
      ((∀ sys u rest, cmpMessages = sys :: u :: rest → sys.role = "system" →
        handleContextLength ⟨true, some 30, 0, ""⟩ cmpCount cmpGenerate cmpMessages
          = .ok [sys, u, { role := "user", content := summary, toolCalls := [] }]) ∧
       (∀ u rest, cmpMessages = u :: rest → ¬ u.role = "system" →
        handleContextLength ⟨true, some 30, 0, ""⟩ cmpCount cmpGenerate cmpMessages
          = .ok [u, { role := "user", content := summary, toolCalls := [] }]))) :=
  handleContextLength_spec ⟨true, some 30, 0, ""⟩ cmpCount cmpGenerate cmpMessages 30 rfl


/-! ## Turn limiting and the OpenAI dispatch loop (`src/unnamed/part_014`)

`processOpenAIMessage`, `handleTurns`, `handleResponse`.  The backend is
scripted by request number (`env.backend i` is the single choice of the
`i`-th `Chat.Completions.New` call; the scripted backend never fails and
always returns one choice).  The trace records, per request, whether tool
declarations were attached, the texts delivered on `chat.Recv`, and
`chat.Turns`.  Recursion is fuelled; `.fuelOut` only signals exhausted
fuel, never a program outcome. -/

/-- The backend response (`resp.Choices[0].Message`). -/
structure OpenAIResponse where
  content : String
  toolCalls : List OpenAIToolCall

/-- Scripted collaborators of the OpenAI handlers. -/
structure OpenAIEnv where
  count : String → Nat
  generate : String → Except String String
  runTool : String → List (List Char × Json) → ToolOutcome
  backend : Nat → OpenAIResponse
  hasTools : Bool

/-- The observable session trace. -/
structure SessionTrace where
  reqCount : Nat
  requests : List Bool
  recv : List String
  turns : Nat
deriving DecidableEq

/-- The outcome of one `processOpenAIMessage` cascade. -/
inductive SessionResult where
  | done (tr : SessionTrace)
  | failed (tr : SessionTrace) (msg : String)
  | panicked
  | fuelOut
deriving DecidableEq

/-- The corrective user message injected on an embedded `<tool_call>`. -/
def invalidToolCallMsg : String :=
  "Error: Invalid tool call format detected. Please use the proper tool calling mechanism instead of embedding tool calls in text."

/-- The final `toolCallIDs` map after `messagesToParamUnion` has replayed
the history (the map is mutated in place and then used for the new tool
responses). -/
def mtpuIdsGo (st : MtpuState) : List OpenAIMessage → MtpuState
  | [] => st
  | msg :: rest => mtpuIdsGo (mtpuStep st msg rest).2 rest

/-- The ids map handed to `handleResponse`. -/
def mtpuIds (messages : List OpenAIMessage) (ids0 : Nat → Option String) :
    Nat → Option String :=
  (mtpuIdsGo { prev := none, idx := 0, ids := ids0 } messages).ids

mutual

/-- `processOpenAIMessage` from `src/unnamed/part_014` lines 496-551. -/
def processMessage (env : OpenAIEnv) (m : OpenAIModel) :
    Nat → List OpenAIMessage → SessionTrace → SessionResult
  | 0, _, _ => .fuelOut
  | fuel + 1, messages, tr =>
    if m.paramsPresent then
      match handleContextLength m env.count env.generate messages with
      | .panic => .panicked
      | .fail e => .failed tr e
      | .ok messages2 =>
        let ids1 := mtpuIds messages2 (fun _ => none)
        match handleTurns env m fuel tr with
        | .inl r => r
        | .inr tr2 =>
          let resp := env.backend tr2.reqCount
          let tr3 := { tr2 with reqCount := tr2.reqCount + 1,
                                requests := tr2.requests ++ [env.hasTools] }
          handleResponse env m fuel resp messages2 ids1 tr3
    else
      .failed tr "nil Parameters attached to model"
termination_by fuel => (fuel, 0)

/-- `handleTurns` from `src/unnamed/part_014` lines 419-431: increment the
turn counter; past the bound, make one request with the tool-free
parameters built before tools were attached, and hand its response to
`handleResponse` with nil messages and nil ids. -/
def handleTurns (env : OpenAIEnv) (m : OpenAIModel) (fuel : Nat) (tr : SessionTrace) :
    Sum SessionResult SessionTrace :=
  if m.maxTurns > 0 ∧ tr.turns + 1 > m.maxTurns then
    .inl (handleResponse env m fuel (env.backend tr.reqCount) [] (fun _ => none)
      { tr with turns := tr.turns + 1, reqCount := tr.reqCount + 1,
                requests := tr.requests ++ [false] })
  else
    .inr { tr with turns := tr.turns + 1 }
termination_by (fuel, 3)

/-- `handleResponse` from `src/unnamed/part_014` lines 433-493 (tool-call
part). -/
def handleResponse (env : OpenAIEnv) (m : OpenAIModel) (fuel : Nat)
    (resp : OpenAIResponse) (messages : List OpenAIMessage)
    (ids : Nat → Option String) (tr : SessionTrace) : SessionResult :=
  if resp.toolCalls.length > 0 then
    let messages1 := messages ++
      [{ role := "assistant", content := resp.content, toolCalls := resp.toolCalls }]
    let r := processToolCalls env.runTool resp.toolCalls messages1.length ids
    if r.processed then
      processMessage env m fuel (messages1 ++ r.toolResponses) tr
    else
      handleResponseText env m fuel resp (messages1 ++ r.toolResponses) tr
  else
    handleResponseText env m fuel resp messages tr
termination_by (fuel, 2)

/-- The text tail of `handleResponse`: re-dispatch on an embedded
`<tool_call>` marker, otherwise deliver the text on `chat.Recv`. -/
def handleResponseText (env : OpenAIEnv) (m : OpenAIModel) (fuel : Nat)
    (resp : OpenAIResponse) (messages : List OpenAIMessage) (tr : SessionTrace) :
    SessionResult :=
  if strContains resp.content "<tool_call>" then
    processMessage env m fuel (messages ++
      [{ role := "assistant", content := resp.content, toolCalls := [] },
       { role := "user", content := invalidToolCallMsg, toolCalls := [] }]) tr
  else
    .done { tr with recv := tr.recv ++ [resp.content] }
termination_by (fuel, 1)

end


/-- A backend response that requests tool work: a nonempty batch of
function-typed calls. -/
def toolfulResp (r : OpenAIResponse) : Prop :=
  r.toolCalls ≠ [] ∧ ∀ tc ∈ r.toolCalls, tc.type = "function"

instance (r : OpenAIResponse) : Decidable (toolfulResp r) := by
  unfold toolfulResp; infer_instance

/-- A plain-text backend response (no tool calls, no embedded
`<tool_call>` marker). -/
def textualResp (r : OpenAIResponse) : Prop :=
  r.toolCalls = [] ∧ strContains r.content "<tool_call>" = false

instance (r : OpenAIResponse) : Decidable (textualResp r) := by
  unfold textualResp; infer_instance

theorem handleTurns_continue (env : OpenAIEnv) (m : OpenAIModel) (fuel : Nat)
    (tr : SessionTrace) (h : ¬ (m.maxTurns > 0 ∧ tr.turns + 1 > m.maxTurns)) :
    handleTurns env m fuel tr = .inr { tr with turns := tr.turns + 1 } := by
  conv_lhs => unfold handleTurns
  rw [if_neg h]

theorem handleTurns_final (env : OpenAIEnv) (m : OpenAIModel) (fuel : Nat)
    (tr : SessionTrace) (h : m.maxTurns > 0 ∧ tr.turns + 1 > m.maxTurns) :
    handleTurns env m fuel tr
      = .inl (handleResponse env m fuel (env.backend tr.reqCount) [] (fun _ => none)
          { tr with turns := tr.turns + 1, reqCount := tr.reqCount + 1,
                    requests := tr.requests ++ [false] }) := by
  conv_lhs => unfold handleTurns
  rw [if_pos h]

theorem handleResponseText_deliver (env : OpenAIEnv) (m : OpenAIModel) (fuel : Nat)
    (resp : OpenAIResponse) (messages : List OpenAIMessage) (tr : SessionTrace)
    (h : strContains resp.content "<tool_call>" = false) :
    handleResponseText env m fuel resp messages tr
      = .done { tr with recv := tr.recv ++ [resp.content] } := by
  conv_lhs => unfold handleResponseText
  rw [h]
  rfl

theorem handleResponse_textual (env : OpenAIEnv) (m : OpenAIModel) (fuel : Nat)
    (resp : OpenAIResponse) (messages : List OpenAIMessage)
    (ids : Nat → Option String) (tr : SessionTrace) (h : textualResp resp) :
    handleResponse env m fuel resp messages ids tr
      = .done { tr with recv := tr.recv ++ [resp.content] } := by
  conv_lhs => unfold handleResponse
  rw [h.1]
  rw [if_neg (by simp)]
  exact handleResponseText_deliver env m fuel resp messages tr h.2

theorem handleResponse_toolful (env : OpenAIEnv) (m : OpenAIModel) (fuel : Nat)
    (resp : OpenAIResponse) (messages : List OpenAIMessage)
    (ids : Nat → Option String) (tr : SessionTrace) (h : toolfulResp resp) :
    handleResponse env m fuel resp messages ids tr
      = processMessage env m fuel
          ((messages ++
            ([{ role := "assistant", content := resp.content,
                toolCalls := resp.toolCalls }] : List OpenAIMessage))
            ++ (processToolCalls env.runTool resp.toolCalls
                (messages ++
                  ([{ role := "assistant", content := resp.content,
                      toolCalls := resp.toolCalls }] : List OpenAIMessage)).length
                ids).toolResponses) tr := by
  conv_lhs => unfold handleResponse
  have hlen : resp.toolCalls.length > 0 := by
    cases hc : resp.toolCalls with
    | nil => exact absurd hc h.1
    | cons a b => simp
  rw [if_pos hlen]
  simp only []
  have hproc := processToolCalls_processed env.runTool resp.toolCalls
    (messages ++
      ([{ role := "assistant", content := resp.content,
          toolCalls := resp.toolCalls }] : List OpenAIMessage)).length ids h.2
  rw [hproc]
  rw [if_pos (by simp [h.1])]

theorem processMessage_step (env : OpenAIEnv) (m : OpenAIModel) (fuel : Nat)
    (messages : List OpenAIMessage) (tr : SessionTrace) (mc : Int)
    (hp : m.paramsPresent = true) (hctx : m.numCtx = some mc)
    (hle : (env.count (messagesToString messages true) : Int) ≤ mc) :
    processMessage env m (fuel + 1) messages tr
      = match handleTurns env m fuel tr with
        | .inl r => r
        | .inr tr2 =>
          handleResponse env m fuel (env.backend tr2.reqCount) messages
            (mtpuIds messages (fun _ => none))
            { tr2 with reqCount := tr2.reqCount + 1,
                       requests := tr2.requests ++ [env.hasTools] } := by
  conv_lhs => unfold processMessage
  rw [hp]
  rw [handleContextLength_within m env.count env.generate messages mc hctx hle]
  simp only [if_true]


theorem session_bounded (env : OpenAIEnv) (m : OpenAIModel) (mc : Int)
    (hp : m.paramsPresent = true) (hctx : m.numCtx = some mc)
    (hcount : ∀ s, (env.count s : Int) ≤ mc)
    (hpos : m.maxTurns > 0) (htools : env.hasTools = true) :
    ∀ k fuel tr messages,
    fuel ≥ k + 2 →
    tr.turns = tr.reqCount →
    tr.turns + k = m.maxTurns →
    (∀ i, i < k → toolfulResp (env.backend (tr.reqCount + i))) →
    textualResp (env.backend (tr.reqCount + k)) →
    processMessage env m fuel messages tr
      = .done { reqCount := tr.reqCount + k + 1,
                requests := tr.requests ++ List.replicate k true ++ [false],
                recv := tr.recv ++ [(env.backend (tr.reqCount + k)).content],
                turns := tr.turns + k + 1 } := by
  intro k
  induction k with
  | zero =>
    intro fuel tr messages hfuel htc hT htf htx
    obtain ⟨f, rfl⟩ : ∃ f, fuel = f + 1 := ⟨fuel - 1, by omega⟩
    rw [processMessage_step env m f messages tr mc hp hctx (hcount _)]
    rw [handleTurns_final env m f tr ⟨hpos, by omega⟩]
    simp only []
    rw [handleResponse_textual env m f _ [] _ _ (by simpa using htx)]
    simp only [SessionResult.done.injEq, SessionTrace.mk.injEq]
    refine ⟨?_, ?_, ?_, ?_⟩ <;> simp
  | succ k ih =>
    intro fuel tr messages hfuel htc hT htf htx
    obtain ⟨f, rfl⟩ : ∃ f, fuel = f + 1 := ⟨fuel - 1, by omega⟩
    rw [processMessage_step env m f messages tr mc hp hctx (hcount _)]
    rw [handleTurns_continue env m f tr (by omega)]
    simp only []
    rw [htools]
    have htf0 : toolfulResp (env.backend tr.reqCount) := by
      have := htf 0 (by omega)
      simpa using this
    rw [handleResponse_toolful env m f _ messages _ _ htf0]
    rw [ih f
      { reqCount := tr.reqCount + 1, requests := tr.requests ++ [true],
        recv := tr.recv, turns := tr.turns + 1 } _
      (by omega) (by simp [htc]) (by simp only []; omega)
      (fun i hi => by
        have := htf (i + 1) (by omega)
        simp only []
        rw [show tr.reqCount + 1 + i = tr.reqCount + (i + 1) by omega]
        exact this)
      (by
        simp only []
        rw [show tr.reqCount + 1 + k = tr.reqCount + (k + 1) by omega]
        exact htx)]
    rw [show tr.reqCount + 1 + k = tr.reqCount + (k + 1) by omega]
    simp [SessionResult.done.injEq, SessionTrace.mk.injEq, List.replicate_succ]
    all_goals omega

theorem session_unbounded (env : OpenAIEnv) (m : OpenAIModel) (mc : Int)
    (hp : m.paramsPresent = true) (hctx : m.numCtx = some mc)
    (hcount : ∀ s, (env.count s : Int) ≤ mc)
    (hzero : m.maxTurns = 0) (htools : env.hasTools = true) :
    ∀ n fuel tr messages,
    fuel ≥ n + 2 →
    (∀ i, i < n → toolfulResp (env.backend (tr.reqCount + i))) →
    textualResp (env.backend (tr.reqCount + n)) →
    processMessage env m fuel messages tr
      = .done { reqCount := tr.reqCount + n + 1,
                requests := tr.requests ++ List.replicate (n + 1) true,
                recv := tr.recv ++ [(env.backend (tr.reqCount + n)).content],
                turns := tr.turns + n + 1 } := by
  intro n
  induction n with
  | zero =>
    intro fuel tr messages hfuel htf htx
    obtain ⟨f, rfl⟩ : ∃ f, fuel = f + 1 := ⟨fuel - 1, by omega⟩
    rw [processMessage_step env m f messages tr mc hp hctx (hcount _)]
    rw [handleTurns_continue env m f tr (by omega)]
    simp only []
    rw [htools]
    rw [handleResponse_textual env m f _ messages _ _ (by simpa using htx)]
    simp only [SessionResult.done.injEq, SessionTrace.mk.injEq]
    refine ⟨?_, ?_, ?_, ?_⟩ <;> simp
  | succ n ih =>
    intro fuel tr messages hfuel htf htx
    obtain ⟨f, rfl⟩ : ∃ f, fuel = f + 1 := ⟨fuel - 1, by omega⟩
    rw [processMessage_step env m f messages tr mc hp hctx (hcount _)]
    rw [handleTurns_continue env m f tr (by omega)]
    simp only []
    rw [htools]
    have htf0 : toolfulResp (env.backend tr.reqCount) := by
      have := htf 0 (by omega)
      simpa using this
    rw [handleResponse_toolful env m f _ messages _ _ htf0]
    rw [ih f
      { reqCount := tr.reqCount + 1, requests := tr.requests ++ [true],
        recv := tr.recv, turns := tr.turns + 1 } _
      (by omega)
      (fun i hi => by
        have := htf (i + 1) (by omega)
        simp only []
        rw [show tr.reqCount + 1 + i = tr.reqCount + (i + 1) by omega]
        exact this)
      (by
        simp only []
        rw [show tr.reqCount + 1 + n = tr.reqCount + (n + 1) by omega]
        exact htx)]
    rw [show tr.reqCount + 1 + n = tr.reqCount + (n + 1) by omega]
    simp [SessionResult.done.injEq, SessionTrace.mk.injEq, List.replicate_succ]
    all_goals omega


/-- C5: with `maxTurns = T > 0` and a backend that answers every
tool-carrying request with more tool calls, each dispatch increments the
turn counter, and as soon as the counter exceeds the bound the session
makes exactly one final request *without* tool declarations and delivers
that request's text: the whole run makes `T` tool-carrying requests plus
the single final one, and the caller receives exactly the final text.
With `maxTurns = 0` no bound is imposed: for every `n`, a backend
returning `n` tool rounds before a text answer is followed for all `n`
rounds, every request carrying tool declarations. -/
theorem handleTurns_bounds_session
    (env1 : OpenAIEnv) (m1 : OpenAIModel) (mc1 : Int) (T : Nat)
    (hp1 : m1.paramsPresent = true) (hctx1 : m1.numCtx = some mc1)
    (hcount1 : ∀ s, (env1.count s : Int) ≤ mc1)
    (hT : m1.maxTurns = T) (hpos : 0 < m1.maxTurns) (htools1 : env1.hasTools = true)
    (htf1 : ∀ i, i < T → toolfulResp (env1.backend i))
    (htx1 : textualResp (env1.backend T))
    (fuel1 : Nat) (hfuel1 : fuel1 ≥ T + 2) (messages1 : List OpenAIMessage)
    (env2 : OpenAIEnv) (m2 : OpenAIModel) (mc2 : Int) (n : Nat)
    (hp2 : m2.paramsPresent = true) (hctx2 : m2.numCtx = some mc2)
    (hcount2 : ∀ s, (env2.count s : Int) ≤ mc2)
    (hzero : m2.maxTurns = 0) (htools2 : env2.hasTools = true)
    (htf2 : ∀ i, i < n → toolfulResp (env2.backend i))
    (htx2 : textualResp (env2.backend n))
    (fuel2 : Nat) (hfuel2 : fuel2 ≥ n + 2) (messages2 : List OpenAIMessage) :
    processMessage env1 m1 fuel1 messages1 ⟨0, [], [], 0⟩
      = .done ⟨T + 1, List.replicate T true ++ [false],
               [(env1.backend T).content], T + 1⟩ ∧
    processMessage env2 m2 fuel2 messages2 ⟨0, [], [], 0⟩
      = .done ⟨n + 1, List.replicate (n + 1) true,
               [(env2.backend n).content], n + 1⟩ := by
  constructor
  · have h := session_bounded env1 m1 mc1 hp1 hctx1 hcount1 hpos htools1 T fuel1
      ⟨0, [], [], 0⟩ messages1 hfuel1 rfl (by simp [hT])
      (fun i hi => by simpa using htf1 i hi) (by simpa using htx1)
    simpa using h
  · have h := session_unbounded env2 m2 mc2 hp2 hctx2 hcount2 hzero htools2 n fuel2
      ⟨0, [], [], 0⟩ messages2 hfuel2
      (fun i hi => by simpa using htf2 i hi) (by simpa using htx2)
    simpa using h

/-- A function-typed tool call for the C5 witness. -/
def wC5ToolCall : OpenAIToolCall :=
  { id := "t1", type := "function",
    function := { name := "pwd", arguments := "\x7b\x7d" } }

/-- Scenario-E environment: the backend answers every tool-carrying
request with another tool call and a plain text otherwise (scripted: tool
calls for the first request, text from the second on). -/
def wC5Env1 : OpenAIEnv :=
  { count := fun _ => 0, generate := fun _ => .ok "",
    runTool := fun _ _ => .finishes "/tmp" none,
    backend := fun i =>
      if i < 1 then { content := "", toolCalls := [wC5ToolCall] }
      else { content := "The directory is /tmp.", toolCalls := [] },
    hasTools := true }

/-- The Scenario-E model: `maxTurns = 1`. -/
def wC5M1 : OpenAIModel :=
  { paramsPresent := true, numCtx := some 32768, maxTurns := 1, systemPrompt := "" }

/-- Environment for the unbounded half: two tool rounds, then text. -/
def wC5Env2 : OpenAIEnv :=
  { count := fun _ => 0, generate := fun _ => .ok "",
    runTool := fun _ _ => .finishes "/tmp" none,
    backend := fun i =>
      if i < 2 then { content := "", toolCalls := [wC5ToolCall] }
      else { content := "done", toolCalls := [] },
    hasTools := true }

/-- The unbounded model: `maxTurns = 0`. -/
def wC5M2 : OpenAIModel :=
  { paramsPresent := true, numCtx := some 32768, maxTurns := 0, systemPrompt := "" }

/-- Witness for C5: Scenario E (`maxTurns = 1`) and an unbounded
three-round run. -/
theorem handleTurns_bounds_session_witness :
    processMessage wC5Env1 wC5M1 4 [] ⟨0, [], [], 0⟩
      = .done ⟨1 + 1, List.replicate 1 true ++ [false],
               [(wC5Env1.backend 1).content], 1 + 1⟩ ∧
    processMessage wC5Env2 wC5M2 5 [] ⟨0, [], [], 0⟩
      = .done ⟨2 + 1, List.replicate (2 + 1) true,
               [(wC5Env2.backend 2).content], 2 + 1⟩ :=
  handleTurns_bounds_session wC5Env1 wC5M1 32768 1 rfl rfl
    (fun s => by show ((0 : Nat) : Int) ≤ 32768; decide)
    rfl (by decide) rfl (by decide) (by decide) 4 (by decide) []
    wC5Env2 wC5M2 32768 2 rfl rfl
    (fun s => by show ((0 : Nat) : Int) ≤ 32768; decide)
    rfl rfl (by decide) (by decide) 5 (by decide) []


/-! ## Argument merging (`src/provider.go`, `Provider.RunTool`)

The tool registry (`tools.GetTool`) and the tool bodies are scripted; the
argument map `map[string]any` is modelled as a partial function from keys
to `Json` values (option values are strings, stored as `.str`).  Go
mutates the caller's map in place (`args[key] = value`); the embedding
returns the map the caller observes after the call (`finalArgs`) together
with the map the tool body actually received (`invoked`), and the result
pair.  The embedding covers the OLLAMA/OPENAI branches of the provider
switch (the handlers verified here); the `tool.Summarize` post-processing
call is scripted by `generate`. -/

/-- A registered tool (`tools.Tool`): its options, whether it has a `Run`
function, and whether its output is summarized. -/
structure GoTool where
  options : List (String × String)
  hasRun : Bool
  summarize : Bool

/-- The observable outcome of `Provider.RunTool`. -/
structure RunToolOutcome where
  finalArgs : String → Option Json
  invoked : Option (String → Option Json)
  result : Json
  err : Option String

/-- The in-place merge `for key, value := range tool.Options { args[key] = value }`. -/
def mergeOptions (options : List (String × String)) (args : String → Option Json) :
    String → Option Json :=
  options.foldl (fun acc kv => fun k => if k = kv.1 then some (.str kv.2.toList) else acc k)
    args

/-- `Provider.RunTool` from `src/provider.go` lines 122-164 (OLLAMA/OPENAI
branches), with the registry, the tool body, and the summarizing backend
scripted. -/
def RunTool (registry : String → Option GoTool)
    (runBody : String → (String → Option Json) → Json × Option String)
    (generate : Json → Except String String)
    (toolName : String) (args : String → Option Json) : RunToolOutcome :=
  match registry toolName with
  | none =>
    { finalArgs := args, invoked := none,
      result := .str (("tool ").toList ++ toolName.toList ++ (" does not exist").toList),
      err := some ("tool " ++ toolName ++ " does not exist") }
  | some tool =>
    let merged := mergeOptions tool.options args
    let p :=
      if tool.hasRun then runBody toolName merged
      else (Json.null, some ("tool " ++ toolName ++ " does not have a run function"))
    if tool.summarize then
      match generate p.1 with
      | .ok s =>
        { finalArgs := merged, invoked := if tool.hasRun then some merged else none,
          result := .str s.toList, err := none }
      | .error e =>
        { finalArgs := merged, invoked := if tool.hasRun then some merged else none,
          result := .null, err := some e }
    else
      { finalArgs := merged, invoked := if tool.hasRun then some merged else none,
        result := p.1, err := p.2 }

theorem mergeOptions_not_mem (options : List (String × String)) :
    ∀ args k, (∀ v, (k, v) ∉ options) → mergeOptions options args k = args k := by
  induction options with
  | nil => intro args k _; rfl
  | cons kv rest ih =>
    intro args k hk
    have hne : ¬ k = kv.1 := by
      intro hcon
      exact hk kv.2 (by rw [hcon]; exact List.mem_cons_self (kv.1, kv.2) rest)
    rw [show mergeOptions (kv :: rest) args
        = mergeOptions rest (fun x => if x = kv.1 then some (.str kv.2.toList) else args x)
        from rfl]
    rw [ih _ k (fun v hv => hk v (List.mem_cons_of_mem kv hv))]
    simp [hne]

theorem mergeOptions_mem (options : List (String × String)) :
    ∀ args k v, (options.map Prod.fst).Nodup → (k, v) ∈ options →
    mergeOptions options args k = some (.str v.toList) := by
  induction options with
  | nil => intro args k v _ hmem; simp at hmem
  | cons kv rest ih =>
    intro args k v hnodup hmem
    simp only [List.map_cons, List.nodup_cons] at hnodup
    rw [show mergeOptions (kv :: rest) args
        = mergeOptions rest (fun x => if x = kv.1 then some (.str kv.2.toList) else args x)
        from rfl]
    rcases List.mem_cons.mp hmem with h | h
    · have hk : k = kv.1 := by rw [← h]
      have hv : v = kv.2 := by rw [← h]
      have hnin : ∀ w, (k, w) ∉ rest := by
        intro w hcon
        exact hnodup.1 (hk ▸ List.mem_map_of_mem Prod.fst hcon)
      rw [mergeOptions_not_mem rest _ k hnin]
      simp [hk, hv]
    · exact ih _ k v hnodup.2 h

/-- C10: for every invocation of a registered tool, `Provider.RunTool`
writes every key/value pair of the tool's `Options` into the
caller-supplied arguments map in place before execution — overwriting any
same-key argument the model supplied, leaving all other keys unchanged —
and the tool body then runs on exactly this merged map. -/
theorem RunTool_merges_options (registry : String → Option GoTool)
    (runBody : String → (String → Option Json) → Json × Option String)
    (generate : Json → Except String String)
    (toolName : String) (args : String → Option Json) (tool : GoTool)
    (hreg : registry toolName = some tool)
    (hkeys : (tool.options.map Prod.fst).Nodup)
    (hrun : tool.hasRun = true) :
    (∀ kv ∈ tool.options,
      (RunTool registry runBody generate toolName args).finalArgs kv.1
        = some (.str kv.2.toList)) ∧
    (∀ k, (∀ v, (k, v) ∉ tool.options) →
      (RunTool registry runBody generate toolName args).finalArgs k = args k) ∧
    (RunTool registry runBody generate toolName args).invoked
      = some ((RunTool registry runBody generate toolName args).finalArgs) := by
  have hfinal : (RunTool registry runBody generate toolName args).finalArgs
      = mergeOptions tool.options args := by
    rw [RunTool, hreg]
    simp only [hrun, if_true]
    cases tool.summarize <;>
      cases generate (runBody toolName (mergeOptions tool.options args)).1 <;> simp
  have hinv : (RunTool registry runBody generate toolName args).invoked
      = some (mergeOptions tool.options args) := by
    rw [RunTool, hreg]
    simp only [hrun, if_true]
    cases tool.summarize <;>
      cases generate (runBody toolName (mergeOptions tool.options args)).1 <;> simp
  refine ⟨?_, ?_, ?_⟩
  · intro kv hkv
    rw [hfinal]
    exact mergeOptions_mem tool.options args kv.1 kv.2 hkeys hkv
  · intro k hk
    rw [hfinal]
    exact mergeOptions_not_mem tool.options args k hk
  · rw [hfinal, hinv]

/-- The registry of the C10 witness: one tool with one option. -/
def wRegistry : String → Option GoTool :=
  fun n => if n = "search" then
    some { options := [("apiKey", "secret")], hasRun := true, summarize := false }
  else none

/-- The caller-supplied arguments of the C10 witness. -/
def wArgs : String → Option Json :=
  fun k => if k = "apiKey" then some (.str ("model-supplied").toList)
    else if k = "query" then some (.str ("weather").toList)
    else none

/-- Witness for C10: the option overwrites the model-supplied `apiKey`,
`query` is untouched, and the tool runs on the merged map. -/
theorem RunTool_merges_options_witness :
    (∀ kv ∈ [("apiKey", "secret")],
      (RunTool wRegistry (fun _ _ => (Json.null, none)) (fun _ => .ok "") "search"
        wArgs).finalArgs kv.1 = some (.str kv.2.toList)) ∧
    (∀ k, (∀ v, (k, v) ∉ [("apiKey", "secret")]) →
      (RunTool wRegistry (fun _ _ => (Json.null, none)) (fun _ => .ok "") "search"
        wArgs).finalArgs k = wArgs k) ∧
    (RunTool wRegistry (fun _ _ => (Json.null, none)) (fun _ => .ok "") "search"
        wArgs).invoked
      = some ((RunTool wRegistry (fun _ _ => (Json.null, none)) (fun _ => .ok "") "search"
        wArgs).finalArgs) :=
  RunTool_merges_options wRegistry (fun _ _ => (Json.null, none)) (fun _ => .ok "")
    "search" wArgs { options := [("apiKey", "secret")], hasRun := true, summarize := false }
    rfl (by decide) rfl

end Genai
